import Mathlib

/-!
Verification of the telnyx-mock stub server against its specification.

The Go sources are shallowly embedded: Go strings become `List Char` (for
the routing and authorization code, where splitting and matching on
characters matters) or `String` (for map keys and schema fields); Go maps
become association lists; nil pointers become `Option`; Go panics become
explicit outcome constructors.  Functions that recurse through data the
source bounds only dynamically take an explicit fuel argument so that every
definition is executable; theorems quantify over sufficient fuel.
-/

/-! ## String utilities

Go `strings.Split(s, sep)` for a non-empty separator: greedy leftmost scan,
splitting around each non-overlapping instance of the separator.  The fuel
is at least `s.length + 1`, which the wrapper supplies, so the fuel-exhausted
branch is unreachable.
-/

def splitOnFuel (sep : List Char) : Nat → List Char → List Char → List (List Char)
  | 0, s, acc => [acc.reverse ++ s]
  | _ + 1, [], acc => [acc.reverse]
  | fuel + 1, c :: rest, acc =>
    if sep.isPrefixOf (c :: rest) then
      acc.reverse :: splitOnFuel sep fuel (List.drop sep.length (c :: rest)) []
    else
      splitOnFuel sep fuel rest (c :: acc)

/-- Go `strings.Split` on `List Char` (separator assumed non-empty, as at
every call site of the embedded code). -/
def splitOnList (sep s : List Char) : List (List Char) :=
  splitOnFuel sep (s.length + 1) s []

/-- Go `strings.SplitAfterN(s, sep, 2)` keeps the separator with the left
part; the embedded code only ever uses the part after the first occurrence
of the separator, so this returns that suffix, or `none` when the separator
does not occur (in Go, `len(parts) < 2`). -/
def splitAfterFirst (sep : List Char) : List Char → Option (List Char)
  | [] => none
  | c :: rest =>
    if sep.isPrefixOf (c :: rest) then
      some (List.drop sep.length (c :: rest))
    else
      splitAfterFirst sep rest

/-- Go string comparison (bytewise lexicographic; on the character lists,
which agrees for the ASCII names the schemas use). -/
def strLtChars : List Char → List Char → Bool
  | [], [] => false
  | [], _ :: _ => true
  | _ :: _, [] => false
  | a :: as, b :: bs => if a < b then true else if b < a then false else strLtChars as bs

/-! ## validateAuth (server.go)

The authorization check: split the header on a blank, expect exactly
`["Bearer", key]`, split the key on `"KEY"`, expect exactly two parts with a
non-empty second part.
-/

def validateAuth (auth : List Char) : Bool :=
  if auth = [] then
    false
  else
    match splitOnList [' '] auth with
    | [p0, p1] =>
      if p1 = [] then
        false
      else if p0 = "Bearer".data then
        match splitOnList "KEY".data p1 with
        | [_, k1] => !k1.isEmpty
        | _ => false
      else
        false
    | _ => false

/-- The form the spec ascribes to accepted headers: the literal text
"Bearer KEY" followed by a non-empty string.  This definition follows the
words of the spec (not the code) and is compared against `validateAuth`. -/
def authHeaderSpecForm (auth : List Char) : Bool :=
  "Bearer KEY".data.isPrefixOf auth && decide ("Bearer KEY".data.length < auth.length)

/-! ## Path compiler and router (server.go)

A compiled OpenAPI path is a sequence of segments, each either a literal or
a named parameter.  The Go code compiles each path into the regular
expression `\A(/lit|/(?P<name>[^\.\/\?]+))*\z`; the matcher below gives the
semantics of that expression directly on the split path (for literal
segments free of regex metacharacters, which is every literal the routing
table contains).  Matching is deterministic: the parameter character class
excludes the only characters that can follow a parameter capture, so the
greedy maximal run is the one possible capture.
-/

inductive Seg : Type where
  | lit (s : List Char)
  | param (name : List Char)
  deriving DecidableEq

/-- A character of Go regexp `\w` (the pattern is compiled without the
Unicode flag, so this is `[0-9A-Za-z_]`). -/
def pathWordChar (c : Char) : Bool :=
  c.isAlphanum || c = '_'

/-- The first match of `\{(\w+)\}` inside one path part, as
`regexp.FindAllStringSubmatch` finds it: the leftmost brace followed by a
non-empty word run and a closing brace. -/
def findParamName : List Char → Option (List Char)
  | [] => none
  | c :: rest =>
    if c = '{' then
      match rest.takeWhile pathWordChar, rest.drop (rest.takeWhile pathWordChar).length with
      | _ :: _, '}' :: _ => some (rest.takeWhile pathWordChar)
      | _, _ => findParamName rest
    else
      findParamName rest

/-- The body of `compilePath`: walk the slash-separated parts, skipping
empty ones; a part containing `{name}` compiles to a parameter segment
named by the first such occurrence, any other part to a literal segment. -/
def compilePathParts : List (List Char) → List Seg × List (List Char)
  | [] => ([], [])
  | part :: rest =>
    let (segs, names) := compilePathParts rest
    if part = [] then
      (segs, names)
    else
      match findParamName part with
      | none => (Seg.lit part :: segs, names)
      | some nm => (Seg.param nm :: segs, nm :: names)

/-- `compilePath` (server.go): the compiled pattern and the parameter names
in order of appearance. -/
def compilePath (path : List Char) : List Seg × List (List Char) :=
  compilePathParts (splitOnList ['/'] path)

/-- A character the parameter class `[^\.\/\?]` accepts. -/
def paramChar (c : Char) : Bool :=
  !(c = '.' || c = '/' || c = '?')

/-- Semantics of the compiled, fully anchored pattern: `none` when the path
does not match, otherwise the list of captured parameter values. -/
def matchPat : List Seg → List Char → Option (List (List Char))
  | [], s => if s = [] then some [] else none
  | Seg.lit l :: rest, s =>
    if ('/' :: l).isPrefixOf s then
      matchPat rest (s.drop (l.length + 1))
    else
      none
  | Seg.param _ :: rest, s =>
    match s with
    | '/' :: s2 =>
      match s2.takeWhile paramChar, matchPat rest (s2.drop (s2.takeWhile paramChar).length) with
      | [], _ => none
      | _, none => none
      | run, some caps => some (run :: caps)
    | _ => none

/-- `hasPrimaryIDSuffixes` (server.go): the path suffixes for which the
router expects a primary object ID in the URL. -/
def hasPrimaryIDSuffixes : List (List Char) :=
  ["\x7d".data, "/approve".data, "/capture".data, "/cancel".data, "/close".data,
   "/decline".data, "/finalize".data, "/mark_uncollectible".data, "/pay".data,
   "/refund".data, "/reject".data, "/send".data, "/verify".data, "/void".data]

/-- The `hasPrimaryID` computation of `initializeRouter`: the path ends in
one of the recognized suffixes. -/
def pathHasPrimaryID (path : List Char) : Bool :=
  hasPrimaryIDSuffixes.any (fun suf => suf.isSuffixOf path)

/-- One route of the routing table (`stubServerRoute` in server.go); the
operation, media type and validator fields play no part in the routing
claims and are omitted. -/
structure stubServerRoute where
  hasPrimaryID : Bool
  pattern : List Seg
  pathParamNames : List (List Char)
  deriving DecidableEq

/-- The route `initializeRouter` builds for one path of the OpenAPI
document. -/
def buildRoute (path : List Char) : stubServerRoute :=
  { hasPrimaryID := pathHasPrimaryID path
    pattern := (compilePath path).1
    pathParamNames := (compilePath path).2 }

/-- The ordering `initializeRouter` sorts each routing table by: ascending
number of path parameters. -/
def routeLe (a b : stubServerRoute) : Prop :=
  a.pathParamNames.length ≤ b.pathParamNames.length

instance : DecidableRel routeLe :=
  fun a b => Nat.decLe a.pathParamNames.length b.pathParamNames.length

instance : IsTotal stubServerRoute routeLe :=
  ⟨fun a b => Nat.le_total a.pathParamNames.length b.pathParamNames.length⟩

instance : IsTrans stubServerRoute routeLe :=
  ⟨fun _ _ _ => Nat.le_trans⟩

/-- `initializeRouter` (server.go) for one verb: compile every path of the
document into a route, then sort the table by ascending parameter count
(`sort.Slice`; the pre-sort order of a Go map walk is arbitrary, so the
input order here stands for any such order). -/
def initializeRouter (paths : List (List Char)) : List stubServerRoute :=
  List.insertionSort routeLe (paths.map buildRoute)

/-- `PathParamsSecondaryID` (server.go), without the mutable
`replacedIDs` bookkeeping that only the ID reflector touches. -/
structure PathParamsSecondaryID where
  id : List Char
  name : List Char
  deriving DecidableEq

/-- `PathParamsMap` (server.go), without the mutable `replacedPrimaryID`
bookkeeping. -/
structure PathParamsMap where
  primaryID : Option (List Char)
  secondaryIDs : List PathParamsSecondaryID
  deriving DecidableEq

/-- The `PathParamsMap` that `routeRequest` builds from a match.  In Go,
`firstMatch` is the whole matched string followed by the captures, so
`firstMatch[i+1]` is capture `i` and `firstMatch[len-1]` is the last
capture, or the whole string when there are none (out-of-range access,
impossible for a compiled route, is modelled with a default). -/
def mkPathParams (route : stubServerRoute) (whole : List Char)
    (caps : List (List Char)) : PathParamsMap :=
  { primaryID :=
      if route.hasPrimaryID then some (caps.getLastD whole) else none
    secondaryIDs :=
      (List.range
          (if route.hasPrimaryID then
            route.pathParamNames.length - 1
          else
            route.pathParamNames.length)).map
        (fun i => { id := caps.getD i [], name := route.pathParamNames.getD i [] }) }

/-- The loop of `routeRequest` (server.go): the first route whose pattern
matches wins; a route without path parameters is returned with no
`PathParamsMap`. -/
def routeRequestGo : List stubServerRoute → List Char →
    Option (stubServerRoute × Option PathParamsMap)
  | [], _ => none
  | route :: rest, p =>
    match matchPat route.pattern p with
    | none => routeRequestGo rest p
    | some caps =>
      if route.pathParamNames.length < 1 then
        some (route, none)
      else
        some (route, some (mkPathParams route p caps))

/-- `routeRequest` (server.go): strip everything through the first `/v2`
(`strings.SplitAfterN(path, "/v2", 2)`), then walk the table in order. -/
def routeRequest (routes : List stubServerRoute) (path : List Char) :
    Option (stubServerRoute × Option PathParamsMap) :=
  match splitAfterFirst "/v2".data path with
  | none => none
  | some rest => routeRequestGo routes rest

/-! ## JSON values

Decoded JSON (Go `interface{}` after `json.Unmarshal`): null, booleans,
numbers, strings, arrays, objects.  Go float64/int distinctions are
collapsed into one numeric constructor, and object key order stands for the
(arbitrary) Go map walk order.
-/

inductive Value : Type where
  | null
  | bool (b : Bool)
  | num (n : Int)
  | str (s : String)
  | arr (elems : List Value)
  | obj (fields : List (String × Value))

/-- Go map lookup on an association list (first binding wins; the embedded
builders keep keys distinct). -/
def lookupKey {α : Type} (k : String) : List (String × α) → Option α
  | [] => none
  | (k2, v) :: rest => if k2 = k then some v else lookupKey k rest

/-- Go map assignment: replace the binding in place or append a new one,
preserving key distinctness so that the list length is the map size. -/
def mapInsert {α : Type} (k : String) (v : α) : List (String × α) → List (String × α)
  | [] => [(k, v)]
  | (k2, v2) :: rest => if k2 = k then (k2, v) :: rest else (k2, v2) :: mapInsert k v rest

/-! ## The Schema model (spec/spec.go)

`spec.Schema` is recursive, so it is an inductive with its non-recursive
fields bundled into `SchemaCore`.  Pointer fields (`Items`,
`XExpandableFields`) become `Option`; the untyped `AdditionalProperties`,
`Discriminator`, `Default` and `Example` fields become `Option Value`;
`XExpansionResources`, a pointer to a struct holding one `OneOf` slice,
becomes an optional schema list.  A nil and an empty Go slice or map are
both modelled as the empty list except where the code distinguishes them
(`XExpandableFields`); a present-but-empty JSON `properties` object is the
one shape this conflates.
-/

structure SchemaCore where
  additionalProperties : Option Value
  discriminator : Option Value
  enum : List Value
  format : String
  maxLength : Int
  minLength : Int
  minimum : Int
  maximum : Int
  default : Option Value
  nullable : Bool
  exampleVal : Option Value
  pattern : String
  required : List String
  type : String
  writeOnly : Bool
  readOnly : Bool
  ref : String
  xExpandableFields : Option (List String)
  xResourceID : String

inductive Schema : Type where
  | mk (core : SchemaCore) (allOf anyOf oneOf : List Schema) (items : Option Schema)
      (properties : List (String × Schema))
      (xExpansionResourcesOneOf : Option (List Schema))

def Schema.core : Schema → SchemaCore
  | .mk c _ _ _ _ _ _ => c

def Schema.allOf : Schema → List Schema
  | .mk _ a _ _ _ _ _ => a

def Schema.anyOf : Schema → List Schema
  | .mk _ _ a _ _ _ _ => a

def Schema.oneOf : Schema → List Schema
  | .mk _ _ _ o _ _ _ => o

def Schema.items : Schema → Option Schema
  | .mk _ _ _ _ i _ _ => i

def Schema.properties : Schema → List (String × Schema)
  | .mk _ _ _ _ _ p _ => p

def Schema.xExpansionResourcesOneOf : Schema → Option (List Schema)
  | .mk _ _ _ _ _ _ x => x

def Schema.type (s : Schema) : String := s.core.type

def Schema.ref (s : Schema) : String := s.core.ref

def Schema.pattern (s : Schema) : String := s.core.pattern

def Schema.enum (s : Schema) : List Value := s.core.enum

def Schema.nullable (s : Schema) : Bool := s.core.nullable

def Schema.required (s : Schema) : List String := s.core.required

def Schema.exampleVal (s : Schema) : Option Value := s.core.exampleVal

def Schema.additionalProperties (s : Schema) : Option Value := s.core.additionalProperties

def Schema.xExpandableFields (s : Schema) : Option (List String) := s.core.xExpandableFields

def Schema.xResourceID (s : Schema) : String := s.core.xResourceID

/-- The zero `spec.Schema` value. -/
def zeroCore : SchemaCore :=
  { additionalProperties := none, discriminator := none, enum := [], format := ""
    maxLength := 0, minLength := 0, minimum := 0, maximum := 0, default := none
    nullable := false, exampleVal := none, pattern := "", required := [], type := ""
    writeOnly := false, readOnly := false, ref := "", xExpandableFields := none
    xResourceID := "" }

def zeroSchema : Schema :=
  .mk zeroCore [] [] [] none [] none

/-- `mergo.Merge` on the non-recursive fields: a destination field keeps its
value unless it is the zero value, in which case the source field is
taken. -/
def mergeCore (d s : SchemaCore) : SchemaCore :=
  { additionalProperties :=
      match d.additionalProperties with
      | none => s.additionalProperties
      | some v => some v
    discriminator :=
      match d.discriminator with
      | none => s.discriminator
      | some v => some v
    enum := if d.enum.isEmpty then s.enum else d.enum
    format := if d.format = "" then s.format else d.format
    maxLength := if d.maxLength = 0 then s.maxLength else d.maxLength
    minLength := if d.minLength = 0 then s.minLength else d.minLength
    minimum := if d.minimum = 0 then s.minimum else d.minimum
    maximum := if d.maximum = 0 then s.maximum else d.maximum
    default :=
      match d.default with
      | none => s.default
      | some v => some v
    nullable := d.nullable || s.nullable
    exampleVal :=
      match d.exampleVal with
      | none => s.exampleVal
      | some v => some v
    pattern := if d.pattern = "" then s.pattern else d.pattern
    required := if d.required.isEmpty then s.required else d.required
    type := if d.type = "" then s.type else d.type
    writeOnly := d.writeOnly || s.writeOnly
    readOnly := d.readOnly || s.readOnly
    ref := if d.ref = "" then s.ref else d.ref
    xExpandableFields :=
      match d.xExpandableFields with
      | none => s.xExpandableFields
      | some v => some v
    xResourceID := if d.xResourceID = "" then s.xResourceID else d.xResourceID }

mutual

/-- `mergo.Merge(dst, src)` on schemas: scalar fields keep the first
non-zero value, slice fields keep the destination unless it is empty, and
both-present pointer and map entries merge recursively. -/
def mergeSchema : Schema → Schema → Schema
  | .mk dc dAll dAny dOne dItems dProps dX, .mk sc sAll sAny sOne sItems sProps sX =>
    .mk (mergeCore dc sc)
      (if dAll.isEmpty then sAll else dAll)
      (if dAny.isEmpty then sAny else dAny)
      (if dOne.isEmpty then sOne else dOne)
      (mergeItems dItems sItems)
      (mergeProps dProps sProps)
      (match dX with
       | none => sX
       | some v => some v)

def mergeItems : Option Schema → Option Schema → Option Schema
  | none, s => s
  | some d, none => some d
  | some d, some s => some (mergeSchema d s)

def mergeProps : List (String × Schema) → List (String × Schema) → List (String × Schema)
  | [], src => src
  | (k, v) :: rest, src =>
    (k, match lookupKey k src with
        | some sv => mergeSchema v sv
        | none => v) :: mergeProps rest (src.filter (fun p => p.1 != k))

end

mutual

/-- The inner `flatten(output, input)` closure of `Schema.FlattenAllOf`
(spec/spec.go): merge the input with its `AllOf` slice nillified, then
flatten every `AllOf` member into the same output. -/
def flattenInto : Schema → Schema → Schema
  | out, .mk c al an oo it pr xe =>
    flattenIntoList (mergeSchema out (.mk c [] an oo it pr xe)) al

def flattenIntoList : Schema → List Schema → Schema
  | out, [] => out
  | out, v :: rest => flattenIntoList (flattenInto out v) rest

end

/-- `Schema.FlattenAllOf` (spec/spec.go). -/
def FlattenAllOf (s : Schema) : Schema :=
  flattenInto zeroSchema s

/-! ## BuildQuerySchema (spec/query.go) -/

/-- `spec.Parameter`; the `description` field is omitted.  Field names map
to the Go fields `In`, `Name`, `Required`, `Schema`, `Ref`. -/
structure Parameter where
  paramIn : String
  name : String
  required : Bool
  schema : Option Schema
  ref : String

/-- The suffix of a reference after its first marker occurrence
(`strings.SplitAfterN(ref, marker, 2)[1]`); `none` models the index panic
when the marker is absent. -/
def refAfterMarker (marker : List Char) (ref : String) : Option String :=
  (splitAfterFirst marker ref.data).map (fun l => String.mk l)

/-- The schema a query parameter without a schema receives:
`&Schema{Type: TypeObject}`. -/
def typeObjectSchema : Schema :=
  .mk { zeroCore with type := "object" } [] [] [] none [] none

/-- Outcome of `BuildQuerySchema`: the built schema, the error return for a
reference naming an absent parameter, or the index panic for a reference
without the components marker. -/
inductive BQResult : Type where
  | panicked
  | err
  | ok (s : Schema)

/-- Outcome of dereferencing one operation parameter against
`components/parameters`. -/
inductive DerefResult : Type where
  | panicked
  | unresolved
  | ok (p : Parameter)

/-- The `$ref` handling at the top of the `BuildQuerySchema` loop. -/
def derefParam (parameters : List (String × Parameter)) (p : Parameter) : DerefResult :=
  if p.ref = "" then
    .ok p
  else
    match refAfterMarker "#/components/parameters/".data p.ref with
    | none => .panicked
    | some refName =>
      match lookupKey refName parameters with
      | some v => .ok v
      | none => .unresolved

/-- The loop of `BuildQuerySchema`, threading the properties map and the
required list it mutates. -/
def buildQSLoop (parameters : List (String × Parameter)) :
    List Parameter → List (String × Schema) → List String → BQResult
  | [], props, req =>
    .ok (.mk
      { zeroCore with
          additionalProperties := some (.bool false)
          required := req
          type := "object" }
      [] [] [] none props none)
  | p :: rest, props, req =>
    match derefParam parameters p with
    | .panicked => .panicked
    | .unresolved => .err
    | .ok p2 =>
      if p2.paramIn ≠ "query" then
        buildQSLoop parameters rest props req
      else
        buildQSLoop parameters rest
          (mapInsert p2.name (p2.schema.getD typeObjectSchema) props)
          (if p2.required then req ++ [p2.name] else req)

/-- `spec.MediaType`. -/
structure MediaType where
  schema : Option Schema

/-- `spec.Response`; the `description` field is omitted. -/
structure Response where
  ref : String
  content : List (String × MediaType)

/-- `spec.Operation`; only the fields the claims touch are modelled. -/
structure Operation where
  parameters : List Parameter
  responses : List (String × Response)

/-- `BuildQuerySchema` (spec/query.go). -/
def BuildQuerySchema (operation : Operation) (parameters : List (String × Parameter)) :
    BQResult :=
  buildQSLoop parameters operation.parameters [] []

/-- The query parameters of an operation after dereferencing, in order: the
declarative description the amended claim is stated against. -/
def derefQueryParams (parameters : List (String × Parameter)) (ps : List Parameter) :
    List Parameter :=
  ps.filterMap (fun p =>
    match derefParam parameters p with
    | .ok p2 => if p2.paramIn = "query" then some p2 else none
    | _ => none)

/-- The size of the properties map a `BuildQuerySchema` result carries. -/
def bqPropsLen : BQResult → Nat
  | .ok s => s.properties.length
  | _ => 0

/-! ## Expansion extraction (server.go)

`extractExpansions` reads the `expand` key of the decoded request data: a
string becomes a one-element sequence, a list is walked with an unchecked
`expand.(string)` type assertion on every element (a non-string element
panics), anything else produces no expansions.  `parseExpansionLevel` sorts
the raw strings and folds them into a prefix tree; its recursion on the
grouped sub-expansions strictly shrinks the total string length, which the
fuel of the wrapper bounds.
-/

inductive ExpansionLevel : Type where
  | mk (expansions : List (String × ExpansionLevel)) (wildcard : Bool)

def emptyLevel : ExpansionLevel :=
  .mk [] false

/-- `groups[parts[0]] = append(groups[parts[0]], join)` on the association
list of groups. -/
def groupAdd (k : String) (v : String) :
    List (String × List String) → List (String × List String)
  | [] => [(k, [v])]
  | (k2, vs) :: rest =>
    if k2 = k then (k2, vs ++ [v]) :: rest else (k2, vs) :: groupAdd k v rest

/-- The first loop of `parseExpansionLevel`: singleton parts set a wildcard
or an empty sub-level, longer ones accumulate into groups keyed by their
first part. -/
def parsePass1 : List String → List (String × ExpansionLevel) → Bool →
    List (String × List String) →
    List (String × ExpansionLevel) × Bool × List (String × List String)
  | [], exps, wc, groups => (exps, wc, groups)
  | e :: rest, exps, wc, groups =>
    match splitOnList ['.'] e.data with
    | [p] =>
      if String.mk p = "*" then
        parsePass1 rest exps true groups
      else
        parsePass1 rest (mapInsert (String.mk p) emptyLevel exps) wc groups
    | p :: t =>
      parsePass1 rest exps wc
        (groupAdd (String.mk p) (String.mk (List.intercalate ['.'] t)) groups)
    | [] => parsePass1 rest exps wc groups

mutual

/-- `parseExpansionLevel` (server.go) with explicit fuel; each group member
lost at least its key and a dot, so any fuel above the total string length
suffices and the zero-fuel branch is unreachable. -/
def parseExpansionLevelFuel : Nat → List String → ExpansionLevel
  | 0, _ => emptyLevel
  | fuel + 1, raw =>
    match parsePass1
        (List.insertionSort (fun a b : String => strLtChars b.data a.data = false) raw)
        [] false [] with
    | (exps, wc, groups) => .mk (parseGroups fuel groups exps) wc

/-- The second loop: parse every group recursively into the expansions
map. -/
def parseGroups : Nat → List (String × List String) →
    List (String × ExpansionLevel) → List (String × ExpansionLevel)
  | _, [], exps => exps
  | fuel, (k, subs) :: rest, exps =>
    parseGroups fuel rest (mapInsert k (parseExpansionLevelFuel fuel subs) exps)

end

def parseExpansionLevel (raw : List String) : ExpansionLevel :=
  parseExpansionLevelFuel (raw.foldr (fun s acc => s.length + 1 + acc) 0 + 1) raw

/-- How `extractExpansions` ends: the panic of the element type assertion,
or the level (if any) with the raw expansion strings. -/
inductive ExtractOutcome : Type where
  | panicked
  | ok (level : Option ExpansionLevel) (raw : List String)

/-- The loop over a decoded `expand` list: every element goes through the
unchecked assertion `expand.(string)`. -/
def extractStrings : List Value → Option (List String)
  | [] => some []
  | .str s :: rest => (extractStrings rest).map (fun es => s :: es)
  | _ :: _ => none

/-- `extractExpansions` (server.go). -/
def extractExpansions (data : List (String × Value)) : ExtractOutcome :=
  match lookupKey "expand" data with
  | none => .ok none []
  | some (.str s) => .ok (some (parseExpansionLevel [s])) [s]
  | some (.arr l) =>
    match extractStrings l with
    | none => .panicked
    | some es => .ok (some (parseExpansionLevel es)) es
  | some _ => .ok none []

/-! ## The data generator (generator.go)

`generateInternal` and its satellites.  The Go example wrapper
(`*valueWrapper`, distinguishing a missing example from a present null)
becomes `Option Value` with `some Value.null` for a present null, since a
decoded JSON null is a nil interface.  Every function of the mutually
recursive family takes a fuel argument and decreases it on every call, so
the family is structurally recursive on the fuel and reduces on concrete
inputs; the source bounds the recursion only through the data, and the
theorems quantify over sufficient fuel.
-/

def ExpansionLevel.expansions : ExpansionLevel → List (String × ExpansionLevel)
  | .mk e _ => e

def ExpansionLevel.wildcard : ExpansionLevel → Bool
  | .mk _ w => w

/-- `sort.Search`: the classic halving loop, with fuel at least the
interval width (the wrapper supplies it). -/
def sortSearchFuel : Nat → Nat → Nat → (Nat → Bool) → Nat
  | 0, i, _, _ => i
  | fuel + 1, i, j, f =>
    if i < j then
      if f ((i + j) / 2) then
        sortSearchFuel fuel i ((i + j) / 2) f
      else
        sortSearchFuel fuel ((i + j) / 2 + 1) j f
    else
      i

/-- `sort.SearchStrings(a, x)`: the smallest index whose element is at
least `x` under binary search (meaningful for sorted input, deterministic
for any input). -/
def sortSearchStrings (a : List String) (x : String) : Nat :=
  sortSearchFuel (a.length + 1) 0 a.length (fun h => !strLtChars (a.getD h "").data x.data)

/-- The expansion feasibility check of `generateInternal`: it errors when
some requested key has insertion index equal to the list length, which for
a sorted list only detects keys sorting after every member. -/
def expansionCheckFails (fields : List String) (el : ExpansionLevel) : Bool :=
  el.expansions.any (fun kv => sortSearchStrings fields kv.1 == fields.length)

/-- Generation failure: the expansion error, the unresolved-reference
error, a Go panic, or the fuel artifact of the embedding (unreachable for
sufficient fuel). -/
inductive GenErr : Type where
  | expansionNotSupported
  | unresolvedRef
  | panicked
  | fuelExhausted

/-- `DataGenerator` (generator.go). -/
structure DataGenerator where
  definitions : List (String × Schema)
  fixtures : List (String × Value)

/-- `Schema.ResolveRef` (spec/spec.go): an empty ref resolves to the schema
itself; a marker-formed ref is looked up in the definitions (error when
absent); a non-empty ref without the marker panics on the split index. -/
def resolveRefSchema (definitions : List (String × Schema)) (s : Schema) :
    Except GenErr Schema :=
  if s.ref = "" then
    .ok s
  else
    match refAfterMarker "#/components/schemas/".data s.ref with
    | none => .error .panicked
    | some name =>
      match lookupKey name definitions with
      | some sch => .ok sch
      | none => .error .unresolvedRef

/-- `isDeletedResource` (generator.go). -/
def isDeletedResource (s : Schema) : Bool :=
  (lookupKey "deleted" s.properties).isSome

/-- `isListResource` (generator.go): an object schema whose properties hold
an `object` property with enum starting "list" and a `data` property with
an items schema. -/
def isListResource (s : Schema) : Bool :=
  if s.type ≠ "object" || s.properties.isEmpty then
    false
  else
    match lookupKey "object" s.properties with
    | none => false
    | some object =>
      match object.enum with
      | Value.str e0 :: _ =>
        if e0 = "list" then
          match lookupKey "data" s.properties with
          | none => false
          | some d => d.items.isSome
        else
          false
      | _ => false

/-- `findAnyOfBranch` (generator.go): the first branch whose resolved
deletedness matches the request method. -/
def findAnyOfBranch (definitions : List (String × Schema)) :
    List Schema → Bool → Except GenErr (Option Schema)
  | [], _ => .ok none
  | a :: rest, deleted =>
    match resolveRefSchema definitions a with
    | .error e => .error e
    | .ok ra =>
      if isDeletedResource ra = deleted then
        .ok (some ra)
      else
        findAnyOfBranch definitions rest deleted

/-- The loop of `generateSyntheticFixture` over `anyOf`: the first branch
without a ref. -/
def synthFirstNonRef : List Schema → Option Schema
  | [] => none
  | s :: rest => if s.ref ≠ "" then synthFirstNonRef rest else some s

mutual

/-- `generateSyntheticFixture` (generator.go): a default value derived from
the schema alone. -/
def generateSyntheticFixture (g : DataGenerator) :
    Nat → Schema → Except GenErr Value
  | 0, _ => .error .fuelExhausted
  | fuel + 1, schema =>
    match schema.exampleVal with
    | some ex => .ok ex
    | none =>
      if schema.nullable then
        .ok .null
      else if schema.ref ≠ "" then
        match resolveRefSchema g.definitions schema with
        | .error _ => .error .panicked
        | .ok resolved => generateSyntheticFixture g fuel resolved
      else
        match schema.enum with
        | e :: _ => .ok e
        | [] =>
          match schema.anyOf with
          | _ :: _ =>
            match synthFirstNonRef schema.anyOf with
            | some sub => generateSyntheticFixture g fuel sub
            | none => .error .panicked
          | [] =>
            if schema.type = "array" then
              .ok (.arr [])
            else if schema.type = "boolean" then
              .ok (.bool true)
            else if schema.type = "integer" then
              .ok (.num 0)
            else if schema.type = "number" then
              .ok (.num 0)
            else if schema.type = "object" then
              match synthProps g fuel schema.properties with
              | .error e => .error e
              | .ok fields => .ok (.obj fields)
            else if schema.type = "string" then
              .ok (.str "")
            else
              .error .panicked
  termination_by structural fuel _ => fuel

/-- The properties loop of the synthetic object case. -/
def synthProps (g : DataGenerator) :
    Nat → List (String × Schema) → Except GenErr (List (String × Value))
  | 0, _ => .error .fuelExhausted
  | _ + 1, [] => .ok []
  | fuel + 1, (key, sub) :: rest =>
    match generateSyntheticFixture g fuel sub with
    | .error e => .error e
    | .ok v =>
      match synthProps g fuel rest with
      | .error e => .error e
      | .ok fields => .ok ((key, v) :: fields)
  termination_by structural fuel _ => fuel

end

/-- The url rule of `generateListResource`: the url property pattern with a
leading caret stripped, else the example url (an unchecked pair of type
assertions that panics unless the example is a map with a string url), else
the request path. -/
def urlValue (subSchema : Schema) (exm : Option Value) (path : String) :
    Except GenErr Value :=
  if "^".data.isPrefixOf subSchema.pattern.data then
    .ok (.str (String.mk (subSchema.pattern.data.drop 1)))
  else
    match exm with
    | some (.obj m) =>
      match lookupKey "url" m with
      | some (.str u) => .ok (.str u)
      | _ => .error .panicked
    | some _ => .error .panicked
    | none => .ok (.str path)

/-- The per-property loop of `generateListResource` after the single item
has been generated. -/
def buildListFields (itemData : Value) (exm : Option Value) (path : String) :
    List (String × Schema) → Except GenErr (List (String × Value))
  | [] => .ok []
  | (key, subSchema) :: rest =>
    match
      (if key = "data" then .ok (Value.arr [itemData])
       else if key = "has_more" then .ok (.bool false)
       else if key = "object" then .ok (.str "list")
       else if key = "total_count" then .ok (.num 1)
       else if key = "url" then urlValue subSchema exm path
       else .ok .null : Except GenErr Value) with
    | .error e => .error e
    | .ok v =>
      match buildListFields itemData exm path rest with
      | .error e => .error e
      | .ok fields => .ok ((key, v) :: fields)

mutual

/-- `generateInternal` (generator.go), with the case order of the source:
resolve the ref; check expansion feasibility; adopt a fixture as example;
follow `x-expansionResources`; the nullable unary `anyOf`; `anyOf` by
deletedness; `oneOf` first branch; list resources; synthesize a fixture;
return the example for leaves; walk object properties. -/
def generateInternal (g : DataGenerator) :
    Nat → Option ExpansionLevel → Schema → Option Value → String → String →
      Except GenErr Value
  | 0, _, _, _, _, _ => .error .fuelExhausted
  | fuel + 1, exps, schema0, example0, method, path =>
    match resolveRefSchema g.definitions schema0 with
    | .error e => .error e
    | .ok schema =>
      if (match exps, schema.xExpandableFields with
          | some el, some fields => expansionCheckFails fields el
          | _, _ => false) then
        .error .expansionNotSupported
      else
        match
          (if (match example0 with
               | none => true
               | some .null => true
               | some _ => false) && schema.xResourceID ≠ "" then
            match lookupKey schema.xResourceID g.fixtures with
            | none => none
            | some fixture => some (some fixture)
          else
            some example0 : Option (Option Value)) with
        | none => .error .panicked
        | some exm =>
          match schema.xExpansionResourcesOneOf with
          | some oneOfList =>
            if exps.isSome then
              match oneOfList with
              | [] => .error .panicked
              | s0 :: _ => generateInternal g fuel exps s0 none method path
            else
              match schema.anyOf with
              | [] => .error .panicked
              | a0 :: _ => generateInternal g fuel exps a0 exm method path
          | none =>
            match
              (match schema.anyOf with
               | [a0] =>
                 if schema.nullable then
                   match exm with
                   | some .null =>
                     if exps.isNone then
                       some (.ok Value.null)
                     else
                       none
                   | _ => some (generateInternal g fuel exps a0 exm method path)
                 else
                   none
               | _ => none : Option (Except GenErr Value)) with
            | some r => r
            | none =>
              match schema.anyOf with
              | _ :: _ => generateAnyOf g fuel exps schema method path
              | [] =>
                match schema.oneOf with
                | o0 :: _ => generateInternal g fuel exps o0 exm method path
                | [] =>
                  if isListResource schema then
                    generateListResource g fuel exps method path schema exm
                  else
                    match
                      (if exm.isNone && schema.xResourceID = "" then
                        match generateSyntheticFixture g fuel schema with
                        | .error e => .error e
                        | .ok v => .ok (some v)
                      else
                        .ok exm : Except GenErr (Option Value)) with
                    | .error e => .error e
                    | .ok example2 =>
                      match example2 with
                      | none => .error .panicked
                      | some .null =>
                        if exps.isSome then
                          .error .panicked
                        else
                          .ok .null
                      | some exv =>
                        if !schema.enum.isEmpty then
                          .ok exv
                        else if schema.type = "boolean" || schema.type = "integer" ||
                            schema.type = "number" || schema.type = "string" then
                          .ok exv
                        else if schema.type = "object" && schema.properties.isEmpty then
                          .ok exv
                        else if schema.type = "array" then
                          .ok exv
                        else if (schema.type = "object" || schema.type = "") &&
                            !schema.properties.isEmpty then
                          match exv with
                          | .obj exampleMap =>
                            match genProps g fuel exps schema.properties exampleMap
                                method path with
                            | .error e => .error e
                            | .ok fields => .ok (.obj fields)
                          | _ => .error .panicked
                        else
                          .error .panicked
  termination_by structural fuel _ _ _ _ _ => fuel

/-- The `anyOf` dispatch by request method (`len(schema.AnyOf) != 0`):
generate from the deletedness-matching branch, else from the first branch,
discarding the example either way. -/
def generateAnyOf (g : DataGenerator) :
    Nat → Option ExpansionLevel → Schema → String → String → Except GenErr Value
  | 0, _, _, _, _ => .error .fuelExhausted
  | fuel + 1, exps, schema, method, path =>
    match findAnyOfBranch g.definitions schema.anyOf (method == "DELETE") with
    | .error e => .error e
    | .ok (some branch) => generateInternal g fuel exps branch none method path
    | .ok none =>
      match schema.anyOf with
      | [] => .error .panicked
      | a0 :: _ => generateInternal g fuel exps a0 none method path
  termination_by structural fuel _ _ _ _ => fuel

/-- `generateListResource` (generator.go): generate exactly one item from
the items schema of the data property, then fill every declared property by
the fixed rules. -/
def generateListResource (g : DataGenerator) :
    Nat → Option ExpansionLevel → String → String → Schema → Option Value →
      Except GenErr Value
  | 0, _, _, _, _, _ => .error .fuelExhausted
  | fuel + 1, exps, method, path, schema, exm =>
    match lookupKey "data" schema.properties with
    | none => .error .panicked
    | some dataProp =>
      match dataProp.items with
      | none => .error .panicked
      | some itemSchema =>
        match generateInternal g fuel
            (exps.bind (fun e => lookupKey "data" e.expansions)) itemSchema none
            method path with
        | .error e => .error e
        | .ok itemData =>
          match buildListFields itemData exm path schema.properties with
          | .error e => .error e
          | .ok fields => .ok (.obj fields)
  termination_by structural fuel _ _ _ _ _ => fuel

/-- The properties walk of the object case: each declared property takes
the sub-expansions (the expansion child, or a fresh empty level under a
wildcard) and the example value under its key; a property with neither is
skipped. -/
def genProps (g : DataGenerator) :
    Nat → Option ExpansionLevel → List (String × Schema) →
      List (String × Value) → String → String →
      Except GenErr (List (String × Value))
  | 0, _, _, _, _, _ => .error .fuelExhausted
  | _ + 1, _, [], _, _, _ => .ok []
  | fuel + 1, exps, (key, subSchema) :: rest, exampleMap, method, path =>
    match
      (match exps with
       | none => none
       | some el =>
         match lookupKey key el.expansions with
         | some sub => some sub
         | none => if el.wildcard then some emptyLevel else none :
         Option ExpansionLevel),
      lookupKey key exampleMap with
    | none, none => genProps g fuel exps rest exampleMap method path
    | subExpansions, subvalueWrapper =>
      match generateInternal g fuel subExpansions subSchema subvalueWrapper
          method path with
      | .error e => .error e
      | .ok v =>
        match genProps g fuel exps rest exampleMap method path with
        | .error e => .error e
        | .ok fields => .ok ((key, v) :: fields)
  termination_by structural fuel _ _ _ _ _ => fuel

end

/-! ## The ID reflector (generator.go)

`recordAndReplaceIDs` and `distributeReplacedIDs`.  These work on the full
`PathParamsMap` including its mutable bookkeeping (`replacedPrimaryID`, the
per-secondary `replacedIDs`), which the router section omits; the reflector
view models the same Go structs at the `String` level of the decoded JSON
and threads the mutation explicitly.  Go map iteration order is the field
list order; the in-place mutation of the enclosing map is modelled by
consulting the processed prefix together with the unprocessed suffix.
-/

/-- `PathParamsSecondaryID` with its mutable `replacedIDs`. -/
structure ReflSecondaryID where
  name : String
  id : String
  replacedIDs : List String

/-- `PathParamsMap` with its mutable `replacedPrimaryID`. -/
structure ReflPathParams where
  primaryID : Option String
  replacedPrimaryID : Option String
  secondaryIDs : List ReflSecondaryID

/-- `appendReplacedID` (server.go): record a replaced ID, skipping the
empty string. -/
def appendReplacedID (p : ReflSecondaryID) (replacedID : String) : ReflSecondaryID :=
  if replacedID ≠ "" then
    { p with replacedIDs := p.replacedIDs ++ [replacedID] }
  else
    p

/-- One `for ... range SecondaryIDs { if pred { append; set; break } }`
loop: the first matching secondary records the old value, and its id is
returned for the field overwrite. -/
def recordFirstMatch (pred : ReflSecondaryID → Bool) (oldVal : String) :
    List ReflSecondaryID → Option String × List ReflSecondaryID
  | [] => (none, [])
  | sec :: rest =>
    if pred sec then
      (some sec.id, appendReplacedID sec oldVal :: rest)
    else
      match recordFirstMatch pred oldVal rest with
      | (r, rest2) => (r, sec :: rest2)

mutual

/-- `recordAndReplaceIDsInternal` (generator.go): slices recurse one level
deeper with no parent key, maps walk their fields, everything else is
untouched. -/
def recordValue (v : Value) (pp : ReflPathParams) (parentKey : Option String)
    (level : Nat) : Value × ReflPathParams :=
  match v with
  | .arr elems =>
    match recordList elems pp level with
    | (elems2, pp2) => (.arr elems2, pp2)
  | .obj fields =>
    match recordFields [] fields pp parentKey level with
    | (fields2, pp2) => (.obj fields2, pp2)
  | other => (other, pp)

def recordList (elems : List Value) (pp : ReflPathParams) (level : Nat) :
    List Value × ReflPathParams :=
  match elems with
  | [] => ([], pp)
  | v :: rest =>
    match recordValue v pp none (level + 1) with
    | (v2, pp2) =>
      match recordList rest pp2 level with
      | (rest2, pp3) => (v2 :: rest2, pp3)

/-- The field loop of the record pass.  `done` is the processed prefix, so
that the `object` lookup of the id rule sees the map as mutated so far.
At level zero a string id is replaced by the primary ID (saving the old
value); deeper, a string id is matched against the secondaries by the
`object` field and then by the parent key; any other string field is
matched against the secondaries by its own key; non-strings recurse. -/
def recordFields (done : List (String × Value)) (todo : List (String × Value))
    (pp : ReflPathParams) (parentKey : Option String) (level : Nat) :
    List (String × Value) × ReflPathParams :=
  match todo with
  | [] => ([], pp)
  | (key, val) :: rest =>
    match
      (if key = "id" then
        match val with
        | .str strVal =>
          if level = 0 then
            match pp.primaryID with
            | some prim =>
              ((key, Value.str prim), { pp with replacedPrimaryID := some strVal })
            | none => ((key, val), pp)
          else
            match
              (match lookupKey "object" (done ++ (key, val) :: rest) with
               | some (.str objectVal) =>
                 match recordFirstMatch (fun sec => sec.name == objectVal) strVal
                     pp.secondaryIDs with
                 | (some nid, secs2) =>
                   (Value.str nid, { pp with secondaryIDs := secs2 })
                 | (none, _) => (val, pp)
               | _ => (val, pp) : Value × ReflPathParams) with
            | (idVal1, pp1) =>
              match parentKey with
              | some pk =>
                match recordFirstMatch (fun sec => sec.name == pk) strVal
                    pp1.secondaryIDs with
                | (some nid, secs2) =>
                  ((key, Value.str nid), { pp1 with secondaryIDs := secs2 })
                | (none, _) => ((key, idVal1), pp1)
              | none => ((key, idVal1), pp1)
        | _ =>
          match recordValue val pp (some key) (level + 1) with
          | (v2, pp2) => ((key, v2), pp2)
      else
        match val with
        | .str strVal =>
          match recordFirstMatch (fun sec => sec.name == key) strVal
              pp.secondaryIDs with
          | (some nid, secs2) => ((key, Value.str nid), { pp with secondaryIDs := secs2 })
          | (none, _) => ((key, val), pp)
        | _ =>
          match recordValue val pp (some key) (level + 1) with
          | (v2, pp2) => ((key, v2), pp2) : (String × Value) × ReflPathParams) with
    | (entry, ppNext) =>
      match recordFields (done ++ [entry]) rest ppNext parentKey level with
      | (rest2, ppFinal) => (entry :: rest2, ppFinal)

end

/-- `recordAndReplaceIDs` (generator.go). -/
def recordAndReplaceIDs (pp : ReflPathParams) (v : Value) : Value × ReflPathParams :=
  recordValue v pp none 0

/-- `strings.Replace(s, old, new, 1)` for a non-empty pattern. -/
def replaceFirstL (s pat new : List Char) : List Char :=
  match s with
  | [] => []
  | c :: rest =>
    if pat.isPrefixOf (c :: rest) then
      new ++ List.drop pat.length (c :: rest)
    else
      c :: replaceFirstL rest pat new

/-- `strings.Index(s, pat) != -1` for a non-empty pattern. -/
def containsSub (pat : List Char) : List Char → Bool
  | [] => pat.isEmpty
  | c :: rest => pat.isPrefixOf (c :: rest) || containsSub pat rest

/-- The secondary loop of the equality rewrite. -/
def distributeFindSecondary (s : String) : List ReflSecondaryID → Option String
  | [] => none
  | sec :: rest =>
    if sec.replacedIDs.contains s then
      some sec.id
    else
      distributeFindSecondary s rest

/-- `distributeReplacedIDsInValue` (generator.go): a string equal to the
replaced primary ID becomes the primary ID; a string equal to one of a
secondary's replaced IDs becomes that secondary's id.  The Go dereference
of a nil PrimaryID (unreachable for router-produced parameters) is
modelled with an empty-string default. -/
def distributeReplacedIDsInValue (pp : ReflPathParams) (v : Value) : Option String :=
  match v with
  | .str s =>
    match pp.replacedPrimaryID with
    | some r =>
      if s = r then
        some (pp.primaryID.getD "")
      else
        distributeFindSecondary s pp.secondaryIDs
    | none => distributeFindSecondary s pp.secondaryIDs
  | _ => none

/-- The per-secondary inner loop of the url rewrite. -/
def urlReplaceOne (s : List Char) (sid : String) : List String → Option (List Char)
  | [] => none
  | r :: rs =>
    if containsSub ('/' :: r.data ++ ['/']) s then
      some (replaceFirstL s ('/' :: r.data ++ ['/']) ('/' :: sid.data ++ ['/']))
    else
      urlReplaceOne s sid rs

/-- The secondary loop of the url rewrite. -/
def urlReplaceSecs (s : List Char) : List ReflSecondaryID → Option (List Char)
  | [] => none
  | sec :: rest =>
    match urlReplaceOne s sec.id sec.replacedIDs with
    | some s2 => some s2
    | none => urlReplaceSecs s rest

/-- `distributeReplacedIDsInURL` (generator.go): the first infix occurrence
of a replaced ID between slashes is rewritten to the replacement between
slashes. -/
def distributeReplacedIDsInURL (pp : ReflPathParams) (v : Value) : Option String :=
  match v with
  | .str s =>
    match pp.replacedPrimaryID with
    | some r =>
      if containsSub ('/' :: r.data ++ ['/']) s.data then
        some (String.mk (replaceFirstL s.data ('/' :: r.data ++ ['/'])
          ('/' :: (pp.primaryID.getD "").data ++ ['/'])))
      else
        (urlReplaceSecs s.data pp.secondaryIDs).map String.mk
    | none => (urlReplaceSecs s.data pp.secondaryIDs).map String.mk
  | _ => none

mutual

/-- `distributeReplacedIDs` (generator.go): slices recurse, map fields go
through the equality rewrite, then (for a field named url, when the
equality rewrite did not fire) the url rewrite, else recurse. -/
def distributeValue (pp : ReflPathParams) (v : Value) : Value :=
  match v with
  | .arr elems => .arr (distributeList pp elems)
  | .obj fields => .obj (distributeFields pp fields)
  | other => other

def distributeList (pp : ReflPathParams) (elems : List Value) : List Value :=
  match elems with
  | [] => []
  | v :: rest => distributeValue pp v :: distributeList pp rest

def distributeFields (pp : ReflPathParams) (fields : List (String × Value)) :
    List (String × Value) :=
  match fields with
  | [] => []
  | (key, value) :: rest =>
    (match distributeReplacedIDsInValue pp value with
     | some nv => (key, Value.str nv)
     | none =>
       if key = "url" then
         match distributeReplacedIDsInURL pp value with
         | some nv => (key, Value.str nv)
         | none => (key, distributeValue pp value)
       else
         (key, distributeValue pp value)) :: distributeFields pp rest

end

/-- `distributeReplacedIDs` (generator.go). -/
def distributeReplacedIDs (pp : ReflPathParams) (v : Value) : Value :=
  distributeValue pp v

/-- The ID reflector as `Generate` runs it: the record pass (mutating the
path parameters) followed by the distribute pass. -/
def reflectIDs (pp : ReflPathParams) (v : Value) : Value × ReflPathParams :=
  match recordAndReplaceIDs pp v with
  | (v1, pp1) => (distributeReplacedIDs pp1 v1, pp1)

/-- C6 counterexample path parameters: two secondaries, no primary. -/
def ppC6 : ReflPathParams :=
  { primaryID := none
    replacedPrimaryID := none
    secondaryIDs :=
      [{ name := "a", id := "A", replacedIDs := [] },
       { name := "b", id := "B", replacedIDs := [] }] }

/-- C6 counterexample value: an object nested under key "b" whose `object`
field names secondary "a", so its id is doubly matched. -/
def vC6 : Value :=
  .obj [("b", .obj [("object", .str "a"), ("id", .str "x")])]

/-- The id of the object nested under "b", for comparing reflector runs. -/
def innerId (v : Value) : Option String :=
  match v with
  | .obj f =>
    match lookupKey "b" f with
    | some (.obj g) =>
      match lookupKey "id" g with
      | some (.str s) => some s
      | _ => none
    | _ => none
  | _ => none

/-- The value `generateListResource` assigns to a declared property, as a
function of the property name (the data singleton, the fixed envelope
constants, the url rule, null otherwise); the url case is total here and
agrees with the code whenever the url rule succeeds. -/
def listFieldRule (itemData : Value) (exm : Option Value) (path : String)
    (n : String) (sub : Schema) : Value :=
  if n = "data" then Value.arr [itemData]
  else if n = "has_more" then Value.bool false
  else if n = "object" then Value.str "list"
  else if n = "total_count" then Value.num 1
  else if n = "url" then
    (match urlValue sub exm path with
     | Except.ok u => u
     | Except.error _ => Value.null)
  else Value.null

/-- A generator over empty definitions and fixtures, for the concrete
claims. -/
def emptyGenerator : DataGenerator :=
  { definitions := [], fixtures := [] }

/-- C2 concrete: a string schema whose x-expandableFields is the sorted
singleton ["customer"]. -/
def schemaExpandable : Schema :=
  .mk { zeroCore with type := "string", xExpandableFields := some ["customer"] }
    [] [] [] none [] none

/-- C2 concrete: a requested expansion of "balance", absent from the
expandable fields but sorting before "customer". -/
def expBalance : ExpansionLevel :=
  .mk [("balance", emptyLevel)] false

/-- C2 concrete: a requested expansion of "zzz", absent and sorting after
every expandable field. -/
def expZzz : ExpansionLevel :=
  .mk [("zzz", emptyLevel)] false

/-- A plain string schema for the generator witnesses. -/
def strSchemaGen : Schema :=
  .mk { zeroCore with type := "string" } [] [] [] none [] none

/-- C5 witness: the data property of the list envelope. -/
def dataPropW : Schema :=
  .mk zeroCore [] [] [] (some strSchemaGen) [] none

/-- C5 witness: a list envelope with the standard properties, a caret
pattern on url, and one extra declared property. -/
def listSchemaW : Schema :=
  .mk { zeroCore with type := "object" } [] [] [] none
    [("object", .mk { zeroCore with enum := [Value.str "list"] } [] [] [] none [] none),
     ("data", dataPropW),
     ("has_more", zeroSchema),
     ("total_count", zeroSchema),
     ("url", .mk { zeroCore with pattern := "^/v2/widgets" } [] [] [] none [] none),
     ("extra", zeroSchema)]
    none

/-! ## Response resolution in HandleRequest (server.go)

After routing, HandleRequest looks up the first response among status codes
200, 201, 202, follows the response ref into components/responses, takes
its application/json content, reads the ref of the data property (or of its
items, setting wrapWithList), and resolves that ref in components/schemas.
The `ok` flag of the responses lookup is overwritten by the later content
and schema lookups, so the `if !ok` guard before the 500 only sees the
schemas lookup; the earlier failures dereference nil pointers or index an
out-of-range slice element and panic.
-/

/-- `spec.Components`. -/
structure Components where
  schemas : List (String × Schema)
  parameters : List (String × Parameter)
  responses : List (String × Response)

/-- The loop over status codes 200, 201, 202: the first response found. -/
def findResponse : List String → List (String × Response) → Option Response
  | [], _ => none
  | c :: cs, rs =>
    match lookupKey c rs with
    | some r => some r
    | none => findResponse cs rs

/-- How the response-resolution fragment of HandleRequest ends: a panic, the
explicit 500 invalid_request_error write, or the resolved schema plus the
wrapWithList flag. -/
inductive RespOutcome : Type where
  | panicked
  | internalError
  | ok (schema : Schema) (wrapWithList : Bool)

def isPanicked : RespOutcome → Bool
  | .panicked => true
  | _ => false

def isInternalError : RespOutcome → Bool
  | .internalError => true
  | _ => false

/-- The tail of the fragment: resolve the data ref in components/schemas.
A ref without the marker panics (`schemaName[1]`); a marker-formed ref
naming an absent schema reaches the one live `if !ok` guard and yields the
500. -/
def resolveDataRef (components : Components) (responseRef : String)
    (wrap : Bool) : RespOutcome :=
  match refAfterMarker "#/components/schemas/".data responseRef with
  | none => .panicked
  | some schemaName =>
    match lookupKey schemaName components.schemas with
    | none => .internalError
    | some schema => .ok schema wrap

/-- Lines 156-192 of `HandleRequest` (server.go): everything between the
status-code loop and the 500 guard, with each Go nil dereference or
out-of-range index modelled as a panic outcome. -/
def resolveResponseSchema (components : Components) (operation : Operation) :
    RespOutcome :=
  match findResponse ["200", "201", "202"] operation.responses with
  | none => .internalError
  | some response =>
    match refAfterMarker "#/components/responses/".data response.ref with
    | none => .panicked
    | some responseName =>
      match lookupKey responseName components.responses with
      | none => .panicked
      | some responseObject =>
        match (lookupKey "application/json" responseObject.content).getD
            { schema := none } with
        | { schema := none } => .panicked
        | { schema := some sch } =>
          match lookupKey "data" sch.properties with
          | none => .panicked
          | some dataSchema =>
            if dataSchema.ref = "" then
              match dataSchema.items with
              | none => .panicked
              | some it => resolveDataRef components it.ref true
            else
              resolveDataRef components dataSchema.ref false

/-- C7 concrete: a 200 response whose ref names an absent component
response. -/
def opMissingResponse : Operation :=
  { parameters := []
    responses := [("200", { ref := "#/components/responses/MPResp", content := [] })] }

/-- C7 concrete: a 200 response whose ref lacks the components marker. -/
def opBadRef : Operation :=
  { parameters := []
    responses := [("200", { ref := "bogus", content := [] })] }

/-- C7 concrete: the envelope schema whose data property references the
MessagingProfile schema. -/
def envelopeSchemaW : Schema :=
  .mk zeroCore [] [] [] none
    [("data",
      .mk { zeroCore with ref := "#/components/schemas/MessagingProfile" }
        [] [] [] none [] none)]
    none

/-- C7 concrete: a well-formed operation whose data schema is absent from
components/schemas. -/
def opMissingSchema : Operation :=
  { parameters := []
    responses := [("200", { ref := "#/components/responses/MPResp", content := [] })] }

/-- C7 concrete: components resolving opMissingSchema up to the missing
schema. -/
def compsMissingSchema : Components :=
  { schemas := []
    parameters := []
    responses :=
      [("MPResp",
        { ref := ""
          content := [("application/json", { schema := some envelopeSchemaW })] })] }

/-- C7 concrete: empty components. -/
def compsEmpty : Components :=
  { schemas := [], parameters := [], responses := [] }

/-- A query parameter used twice by the C8 counterexample operation. -/
def dupQueryParam : Parameter :=
  { paramIn := "query", name := "a", required := false, schema := none, ref := "" }

/-- C8 counterexample operation: two query parameters with the same name. -/
def opDupQuery : Operation :=
  { parameters := [dupQueryParam, dupQueryParam], responses := [] }

/-- A plain string schema for the C8 witness. -/
def strSchemaW : Schema :=
  .mk { zeroCore with type := "string" } [] [] [] none [] none

/-- C8 witness operation: one direct required query parameter and one
referenced parameter. -/
def opQueryW : Operation :=
  { parameters :=
      [{ paramIn := "query", name := "page", required := true
         schema := some strSchemaW, ref := "" },
       { paramIn := "", name := "", required := false, schema := none
         ref := "#/components/parameters/PageNum" }]
    responses := [] }

/-- C8 witness components/parameters map. -/
def parmsW : List (String × Parameter) :=
  [("PageNum",
    { paramIn := "query", name := "size", required := false, schema := none
      ref := "" })]

/-- Concrete route for the C4 witness: the templated path. -/
def routeXid : stubServerRoute :=
  buildRoute "/x/{id}".data

/-- Concrete path parameters for the C4 witness. -/
def ppXid : PathParamsMap :=
  mkPathParams routeXid "/x/abc".data ["abc".data]

/-- Abbreviation for the per-entry effect of the level-0 record pass on an
object when a primary path parameter `P` is present: a string-valued `id`
field becomes `P`, everything else is untouched. -/
def idMapEntry (P : String) (kv : String × Value) : String × Value :=
  if kv.1 = "id" then
    match kv.2 with
    | .str _ => (kv.1, Value.str P)
    | _ => kv
  else kv

/-- The replaced-primary-ID accumulator after the level-0 record pass walks
a field list: the last string value of an `id` field wins. -/
def rpAfter (fields : List (String × Value)) (rp0 : Option String) : Option String :=
  match fields with
  | [] => rp0
  | (k, v) :: rest =>
    rpAfter rest
      (if k = "id" then
        match v with
        | .str s => some s
        | _ => rp0
      else rp0)

/-- Whether a value is a JSON string. -/
def isStrV : Value → Bool
  | .str _ => true
  | _ => false

/-- Whether a field list has a string-valued `id` field. -/
def hasIdStr (fields : List (String × Value)) : Bool :=
  fields.any (fun kv => kv.1 = "id" && isStrV kv.2)

/-- The head transform of one `distributeFields` step. -/
def distributeHead (pp : ReflPathParams) (key : String) (value : Value) :
    String × Value :=
  match distributeReplacedIDsInValue pp value with
  | some nv => (key, Value.str nv)
  | none =>
    if key = "url" then
      match distributeReplacedIDsInURL pp value with
      | some nv => (key, Value.str nv)
      | none => (key, distributeValue pp value)
    else
      (key, distributeValue pp value)

/-! ## The authorization branch of HandleRequest (server.go)

`HandleRequest` reads the Authorization header and, when `validateAuth`
rejects it, writes status 401 (`http.StatusUnauthorized`) with a
`ResponseError` body of type `invalid_request_error` and returns; otherwise
it proceeds to routing.
-/

/-- `ResponseError` (server.go): the error body, serialized as
`\x7b"error": \x7b"message": ..., "type": ...\x7d\x7d`.  The Go field `Type` is named
`errorType` here because `type` is reserved. -/
structure ResponseError where
  message : String
  errorType : String

/-- `typeInvalidRequestError` (server.go). -/
def typeInvalidRequestError : String := "invalid_request_error"

/-- `invalidAuthorization` (server.go): the 401 message format string
(apostrophes written as hex escapes). -/
def invalidAuthorization : String :=
  "Please authenticate by specifying an `Authorization` header with any valid looking testmode secret API key. For example, `Authorization: Bearer KEYSUPERSECRET`. Authorization was \x27%s\x27."

/-- `fmt.Sprintf` for a format string with a single `%s` verb. -/
def sprintfOneVerb (format arg : String) : String :=
  String.mk (replaceFirstL format.data ['%', 's'] arg.data)

/-- `createTelnyxError` (server.go). -/
def createTelnyxError (errorType errorMessage : String) : ResponseError :=
  { message := errorMessage, errorType := errorType }

/-- `http.StatusUnauthorized`. -/
def httpStatusUnauthorized : Nat := 401

/-- Outcome of the authorization gate at the top of `HandleRequest`: either
the early 401 write (status and body of the `writeResponse` call) followed
by `return`, or fall-through to the rest of the handler. -/
inductive AuthGate where
  | unauthorized (status : Nat) (body : ResponseError)
  | proceed

/-- The authorization branch of `HandleRequest` (server.go lines 133-139):
`if !validateAuth(auth) \x7b ...; writeResponse(w, r, start, http.StatusUnauthorized,
telnyxError); return \x7d`. -/
def handleRequestAuthGate (auth : String) : AuthGate :=
  if validateAuth auth.data then
    AuthGate.proceed
  else
    AuthGate.unauthorized httpStatusUnauthorized
      (createTelnyxError typeInvalidRequestError
        (sprintfOneVerb invalidAuthorization auth))

/-! ## Theorems -/

/-- C1 (counterexample): the claim states that `validateAuth` accepts
exactly the headers of the form "Bearer KEY" followed by a non-empty
string.  It is false in both directions: "Bearer KEYaKEYb" has that form
but is rejected (its key splits on "KEY" into three parts), while
"Bearer aKEYb" does not have that form but is accepted. -/
theorem validateAuth_spec_form_counterexample :
    authHeaderSpecForm "Bearer KEYaKEYb".data = true ∧
      validateAuth "Bearer KEYaKEYb".data = false ∧
      validateAuth "Bearer aKEYb".data = true ∧
      authHeaderSpecForm "Bearer aKEYb".data = false := by
  refine ⟨by decide, by decide, by decide, by decide⟩

/-- The split characterization of `validateAuth`, separated out for the C1
theorem. -/
theorem validateAuth_split_characterization (auth : List Char) :
    validateAuth auth = true ↔
      ∃ key k0 k1 : List Char,
        splitOnList [' '] auth = ["Bearer".data, key] ∧
        splitOnList "KEY".data key = [k0, k1] ∧
        k1 ≠ [] := by
  unfold validateAuth
  by_cases hA : auth = []
  · subst hA
    simp [splitOnList, splitOnFuel]
  · rw [if_neg hA]
    cases hsp : splitOnList [' '] auth with
    | nil => simp
    | cons p0 tail =>
      cases tail with
      | nil => simp
      | cons p1 tail2 =>
        cases tail2 with
        | nil =>
          dsimp only
          by_cases h1 : p1 = []
          · subst h1
            simp [splitOnList, splitOnFuel]
          · rw [if_neg h1]
            by_cases h0 : p0 = "Bearer".data
            · subst h0
              cases hk : splitOnList "KEY".data p1 with
              | nil => simp [hk]
              | cons k0 ktail =>
                cases ktail with
                | nil =>
                  dsimp only
                  constructor
                  · intro h
                    exact absurd h (by decide)
                  · rintro ⟨key, k0x, k1x, heq, hsplit, hne⟩
                    injection heq with he1 he2
                    injection he2 with he2 _
                    rw [← he2, hk] at hsplit
                    cases hsplit
                  | cons k1 ktail2 =>
                    cases ktail2 with
                    | nil =>
                      dsimp only
                      constructor
                      · intro h
                        refine ⟨p1, k0, k1, rfl, hk, ?_⟩
                        intro hcon
                        rw [hcon] at h
                        exact absurd h (by decide)
                      · rintro ⟨key, k0x, k1x, heq, hsplit, hne⟩
                        injection heq with he1 he2
                        injection he2 with he2 _
                        rw [← he2, hk] at hsplit
                        injection hsplit with ha hb
                        injection hb with hb _
                        rw [hb]
                        cases k1x with
                        | nil => exact absurd rfl hne
                        | cons a as => rfl
                    | cons k2 ktail3 =>
                      dsimp only
                      constructor
                      · intro h
                        exact absurd h (by decide)
                      · rintro ⟨key, k0x, k1x, heq, hsplit, hne⟩
                        injection heq with he1 he2
                        injection he2 with he2 _
                        rw [← he2, hk] at hsplit
                        injection hsplit with ha hb
                        injection hb with hb hc
                        cases hc
            · rw [if_neg h0]
              constructor
              · intro h
                exact absurd h (by decide)
              · rintro ⟨key, k0x, k1x, heq, hsplit, hne⟩
                injection heq with he _
                exact absurd he h0
        | cons p2 tail3 => simp

/-- C1 (amended): `validateAuth` returns true exactly when the header
splits on a blank into exactly `["Bearer", key]` and the key splits on
"KEY" into exactly two parts with a non-empty second part; and the
authorization gate of `HandleRequest` answers status 401 with an
`invalid_request_error` body exactly when `validateAuth` rejects the
header, proceeding to the rest of the handler exactly when it accepts. -/
theorem validateAuth_iff_split (auth : List Char) :
    (validateAuth auth = true ↔
      ∃ key k0 k1 : List Char,
        splitOnList [' '] auth = ["Bearer".data, key] ∧
        splitOnList "KEY".data key = [k0, k1] ∧
        k1 ≠ []) ∧
    (handleRequestAuthGate (String.mk auth) =
        AuthGate.unauthorized httpStatusUnauthorized
          (createTelnyxError typeInvalidRequestError
            (sprintfOneVerb invalidAuthorization (String.mk auth))) ↔
      validateAuth auth = false) ∧
    (handleRequestAuthGate (String.mk auth) = AuthGate.proceed ↔
      validateAuth auth = true) := by
  refine ⟨validateAuth_split_characterization auth, ?_⟩
  cases hv : validateAuth auth with
  | true =>
    have hg : handleRequestAuthGate (String.mk auth) = AuthGate.proceed := by
      unfold handleRequestAuthGate
      dsimp only
      rw [hv]
      rfl
    rw [hg]
    exact ⟨⟨fun h => AuthGate.noConfusion h, fun h => Bool.noConfusion h⟩,
      ⟨fun _ => rfl, fun _ => rfl⟩⟩
  | false =>
    have hg : handleRequestAuthGate (String.mk auth) =
        AuthGate.unauthorized httpStatusUnauthorized
          (createTelnyxError typeInvalidRequestError
            (sprintfOneVerb invalidAuthorization (String.mk auth))) := by
      unfold handleRequestAuthGate
      dsimp only
      rw [hv]
      rfl
    rw [hg]
    exact ⟨⟨fun _ => rfl, fun _ => rfl⟩,
      ⟨fun h => AuthGate.noConfusion h, fun h => Bool.noConfusion h⟩⟩

/-- Helper for the router claims: a successful `routeRequestGo` result is
the first match in table order. -/
theorem routeRequestGo_first (routes : List stubServerRoute) (p : List Char)
    (rt : stubServerRoute) (pp : Option PathParamsMap)
    (h : routeRequestGo routes p = some (rt, pp)) :
    ∃ pre suf, routes = pre ++ rt :: suf ∧
      (matchPat rt.pattern p).isSome = true ∧
      ∀ r ∈ pre, matchPat r.pattern p = none := by
  induction routes with
  | nil => exact absurd h (by simp [routeRequestGo])
  | cons route rest ih =>
    cases hm : matchPat route.pattern p with
    | none =>
      rw [routeRequestGo, hm] at h
      obtain ⟨pre, suf, hsplit, hsome, hnone⟩ := ih h
      refine ⟨route :: pre, suf, by rw [hsplit]; rfl, hsome, ?_⟩
      intro r hr
      rcases List.mem_cons.mp hr with hr | hr
      · rw [hr]; exact hm
      · exact hnone r hr
    | some caps =>
      rw [routeRequestGo, hm] at h
      dsimp only at h
      have hrt : rt = route := by
        by_cases hc : route.pathParamNames.length < 1
        · rw [if_pos hc] at h
          exact (Prod.mk.injEq _ _ _ _ ▸ (Option.some.injEq _ _ ▸ h)).1.symm
        · rw [if_neg hc] at h
          exact (Prod.mk.injEq _ _ _ _ ▸ (Option.some.injEq _ _ ▸ h)).1.symm
      refine ⟨[], rest, by rw [hrt]; rfl, by rw [hrt, hm]; rfl, ?_⟩
      intro r hr
      exact absurd hr (List.not_mem_nil r)

/-- Helper for the router claims: a successful match that produces a
`PathParamsMap` produces exactly `mkPathParams` of the matched route. -/
theorem routeRequestGo_pp (routes : List stubServerRoute) (p : List Char)
    (rt : stubServerRoute) (pp : PathParamsMap)
    (h : routeRequestGo routes p = some (rt, some pp)) :
    ∃ caps, matchPat rt.pattern p = some caps ∧ pp = mkPathParams rt p caps := by
  induction routes with
  | nil => exact absurd h (by simp [routeRequestGo])
  | cons route rest ih =>
    cases hm : matchPat route.pattern p with
    | none =>
      rw [routeRequestGo, hm] at h
      exact ih h
    | some caps =>
      rw [routeRequestGo, hm] at h
      dsimp only at h
      by_cases hc : route.pathParamNames.length < 1
      · rw [if_pos hc] at h
        cases h
      · rw [if_neg hc] at h
        have h1 := (Prod.mk.injEq _ _ _ _ ▸ (Option.some.injEq _ _ ▸ h))
        refine ⟨caps, ?_, ?_⟩
        · rw [← h1.1]; exact hm
        · rw [← h1.1]
          exact (Option.some.injEq _ _ ▸ h1.2).symm

/-- C3: for every verb table, after initializeRouter the routes are ordered
by ascending number of path parameters; routeRequest returns the first
route in table order whose compiled pattern matches the path remaining
after the first "/v2"; and with routes for /x/{id} and /x/fixed both
registered, a request to /v2/x/fixed matches the literal route /x/fixed. -/
theorem initializeRouter_sorted_and_first_match :
    (∀ paths : List (List Char), List.Sorted routeLe (initializeRouter paths)) ∧
    (∀ (routes : List stubServerRoute) (path : List Char) (rt : stubServerRoute)
        (pp : Option PathParamsMap),
      routeRequest routes path = some (rt, pp) →
      ∃ stripped pre suf,
        splitAfterFirst "/v2".data path = some stripped ∧
        routes = pre ++ rt :: suf ∧
        (matchPat rt.pattern stripped).isSome = true ∧
        ∀ r ∈ pre, matchPat r.pattern stripped = none) ∧
    routeRequest (initializeRouter ["/x/{id}".data, "/x/fixed".data])
        "/v2/x/fixed".data =
      some (buildRoute "/x/fixed".data, none) := by
  refine ⟨?_, ?_, ?_⟩
  · intro paths
    exact List.sorted_insertionSort routeLe (paths.map buildRoute)
  · intro routes path rt pp h
    unfold routeRequest at h
    cases hs : splitAfterFirst "/v2".data path with
    | none => rw [hs] at h; cases h
    | some rest =>
      rw [hs] at h
      obtain ⟨pre, suf, hsplit, hsome, hnone⟩ := routeRequestGo_first routes rest rt pp h
      exact ⟨rest, pre, suf, rfl, hsplit, hsome, hnone⟩
  · rfl

/-- C4: whenever routeRequest matches a route and produces a PathParamsMap,
its PrimaryID is set exactly when the route's hasPrimaryID flag is true,
and the number of secondary IDs is the route's parameter count minus one
when hasPrimaryID is true, else the full parameter count. -/
theorem routeRequest_pathParams_counts (paths : List (List Char))
    (path : List Char) (rt : stubServerRoute) (pp : PathParamsMap)
    (h : routeRequest (initializeRouter paths) path = some (rt, some pp)) :
    pp.primaryID.isSome = rt.hasPrimaryID ∧
      pp.secondaryIDs.length =
        (if rt.hasPrimaryID then rt.pathParamNames.length - 1
         else rt.pathParamNames.length) := by
  unfold routeRequest at h
  cases hs : splitAfterFirst "/v2".data path with
  | none => rw [hs] at h; cases h
  | some rest =>
    rw [hs] at h
    obtain ⟨caps, hm, hpp⟩ := routeRequestGo_pp _ rest rt pp h
    rw [hpp]
    constructor
    · cases hpid : rt.hasPrimaryID with
      | false => simp [mkPathParams, hpid]
      | true => simp [mkPathParams, hpid]
    · simp [mkPathParams]

/-- C4 (witness): the invariant at a concrete request, GET /v2/x/abc
against the single route /x/{id}. -/
theorem routeRequest_pathParams_counts_witness :
    ppXid.primaryID.isSome = routeXid.hasPrimaryID ∧
      ppXid.secondaryIDs.length =
        (if routeXid.hasPrimaryID then routeXid.pathParamNames.length - 1
         else routeXid.pathParamNames.length) :=
  routeRequest_pathParams_counts ["/x/{id}".data] "/v2/x/abc".data routeXid ppXid rfl

/-- Merging into the zero schema copies the source: every destination field
is zero, so the merge takes each source field unchanged. -/
theorem mergeSchema_zero (x : Schema) : mergeSchema zeroSchema x = x := by
  cases x with
  | mk c al an oo it pr xe => rfl

/-- The `allOf` slice after a merge: destination unless empty. -/
theorem mergeSchema_allOf (d s : Schema) :
    (mergeSchema d s).allOf = if d.allOf.isEmpty then s.allOf else d.allOf := by
  cases d
  cases s
  rfl

/-- The flatten pass never populates the output `allOf`: every schema is
merged with its `allOf` nillified. -/
theorem flattenInto_allOf_all (n : Nat) :
    (∀ (out s : Schema), sizeOf s ≤ n → (flattenInto out s).allOf = out.allOf) ∧
      (∀ (out : Schema) (l : List Schema), sizeOf l ≤ n →
        (flattenIntoList out l).allOf = out.allOf) := by
  induction n using Nat.strong_induction_on with
  | _ n ih =>
    constructor
    · intro out s hs
      cases s with
      | mk c al an oo it pr xe =>
        rw [flattenInto]
        have hsz : sizeOf al < sizeOf (Schema.mk c al an oo it pr xe) := by
          simp [Schema.mk.sizeOf_spec]
          omega
        have hal : sizeOf al < n := Nat.lt_of_lt_of_le hsz hs
        rw [(ih (sizeOf al) hal).2 _ al (Nat.le_refl _)]
        rw [mergeSchema_allOf]
        cases hoa : out.allOf with
        | nil => simp [hoa, Schema.allOf]
        | cons y ys => simp [hoa, Schema.allOf]
    · intro out l hl
      cases l with
      | nil => rfl
      | cons v rest =>
        rw [flattenIntoList]
        have hsz : sizeOf (v :: rest) = 1 + sizeOf v + sizeOf rest := by
          simp [List.cons.sizeOf_spec]
        have h1 : sizeOf rest < n := by omega
        have h2 : sizeOf v < n := by omega
        rw [(ih (sizeOf rest) h1).2 _ rest (Nat.le_refl _)]
        exact (ih (sizeOf v) h2).1 _ v (Nat.le_refl _)

/-- A flattened schema carries no `allOf`. -/
theorem FlattenAllOf_allOf (s : Schema) : (FlattenAllOf s).allOf = [] := by
  rw [FlattenAllOf]
  rw [(flattenInto_allOf_all (sizeOf s)).1 zeroSchema s (Nat.le_refl _)]
  rfl

/-- A schema without `allOf` is a fixed point of `FlattenAllOf`: flattening
it merges it once into the zero output and recurses into nothing. -/
theorem FlattenAllOf_fixed (t : Schema) (h : t.allOf = []) : FlattenAllOf t = t := by
  cases t with
  | mk c al an oo it pr xe =>
    have hal : al = [] := h
    subst hal
    rw [FlattenAllOf, flattenInto]
    show mergeSchema zeroSchema (Schema.mk c [] an oo it pr xe) = _
    exact mergeSchema_zero _

/-- C9: FlattenAllOf is idempotent. -/
theorem FlattenAllOf_idempotent (s : Schema) :
    FlattenAllOf (FlattenAllOf s) = FlattenAllOf s :=
  FlattenAllOf_fixed _ (FlattenAllOf_allOf s)

/-- Go map assignment then lookup. -/
theorem lookupKey_mapInsert {α : Type} (k n : String) (v : α) (l : List (String × α)) :
    lookupKey n (mapInsert k v l) = if k = n then some v else lookupKey n l := by
  induction l with
  | nil =>
    by_cases h : k = n
    · simp [mapInsert, lookupKey, h]
    · simp [mapInsert, lookupKey, h]
  | cons kv rest ih =>
    obtain ⟨k2, v2⟩ := kv
    by_cases h2 : k2 = k
    · subst h2
      by_cases h : k2 = n
      · simp [mapInsert, lookupKey, h]
      · simp [mapInsert, lookupKey, h]
    · by_cases h : k2 = n
      · subst h
        have hkn : ¬k = k2 := fun hc => h2 hc.symm
        simp [mapInsert, lookupKey, h2, hkn]
      · simp [mapInsert, lookupKey, h2, h, ih]

/-- The `BuildQuerySchema` loop when every reference resolves: it succeeds,
and the built schema is characterized against the dereferenced query
parameters, with the accumulators as the seed. -/
theorem buildQSLoop_ok (parms : List (String × Parameter)) :
    ∀ (ps : List Parameter) (props : List (String × Schema)) (req : List String),
      (∀ p ∈ ps, ∃ p2, derefParam parms p = DerefResult.ok p2) →
      ∃ s, buildQSLoop parms ps props req = BQResult.ok s ∧
        s.type = "object" ∧
        s.additionalProperties = some (Value.bool false) ∧
        s.required = req ++
          ((derefQueryParams parms ps).filter (fun p => p.required)).map
            (fun p => p.name) ∧
        ∀ n, lookupKey n s.properties =
          (match (derefQueryParams parms ps).reverse.find? (fun p => p.name == n) with
           | some p => some (p.schema.getD typeObjectSchema)
           | none => lookupKey n props) := by
  intro ps
  induction ps with
  | nil =>
    intro props req _
    refine ⟨_, rfl, rfl, rfl, ?_, ?_⟩
    · simp only [derefQueryParams, List.filterMap_nil, List.filter_nil, List.map_nil,
        List.append_nil]
      rfl
    · intro n
      simp only [derefQueryParams, List.filterMap_nil, List.reverse_nil, List.find?_nil]
      rfl
  | cons p rest ih =>
    intro props req h
    obtain ⟨p2, hp2⟩ := h p (List.mem_cons_self p rest)
    have hrest : ∀ q ∈ rest, ∃ q2, derefParam parms q = DerefResult.ok q2 :=
      fun q hq => h q (List.mem_cons_of_mem p hq)
    by_cases hq : p2.paramIn = "query"
    · have hdq : derefQueryParams parms (p :: rest) = p2 :: derefQueryParams parms rest := by
        simp [derefQueryParams, List.filterMap_cons, hp2, hq]
      obtain ⟨s, hs, htype, haddp, hreq, hlook⟩ :=
        ih (mapInsert p2.name (p2.schema.getD typeObjectSchema) props)
          (if p2.required then req ++ [p2.name] else req) hrest
      refine ⟨s, ?_, htype, haddp, ?_, ?_⟩
      · rw [buildQSLoop, hp2]
        simp only [hq, ne_eq, not_true_eq_false, if_false]
        exact hs
      · rw [hdq, hreq]
        by_cases hr : p2.required
        · simp [hr, List.filter_cons]
        · simp [hr, List.filter_cons]
      · intro n
        rw [hdq]
        rw [hlook n]
        cases hf : (derefQueryParams parms rest).reverse.find? (fun q => q.name == n) with
        | some q =>
          simp [List.find?_append, hf]
        | none =>
          simp only [List.reverse_cons, List.find?_append, hf, Option.none_orElse]
          by_cases hn : p2.name = n
          · simp [List.find?, hn, lookupKey_mapInsert]
          · have hnb : (p2.name == n) = false := by
              simp [hn]
            simp [List.find?, hnb, lookupKey_mapInsert, hn]
    · have hdq : derefQueryParams parms (p :: rest) = derefQueryParams parms rest := by
        simp [derefQueryParams, List.filterMap_cons, hp2, hq]
      obtain ⟨s, hs, htype, haddp, hreq, hlook⟩ := ih props req hrest
      refine ⟨s, ?_, htype, haddp, ?_, ?_⟩
      · rw [buildQSLoop, hp2]
        simp only [hq, ne_eq, not_false_eq_true, if_true]
        exact hs
      · rw [hdq]
        exact hreq
      · intro n
        rw [hdq]
        exact hlook n

/-- The `BuildQuerySchema` loop fails exactly on an unresolved reference
(no reference panicking). -/
theorem buildQSLoop_err (parms : List (String × Parameter)) :
    ∀ (ps : List Parameter) (props : List (String × Schema)) (req : List String),
      (∀ p ∈ ps, derefParam parms p ≠ DerefResult.panicked) →
      (buildQSLoop parms ps props req = BQResult.err ↔
        ∃ p ∈ ps, derefParam parms p = DerefResult.unresolved) := by
  intro ps
  induction ps with
  | nil =>
    intro props req _
    simp [buildQSLoop]
  | cons p rest ih =>
    intro props req h
    have hrest : ∀ q ∈ rest, derefParam parms q ≠ DerefResult.panicked :=
      fun q hq => h q (List.mem_cons_of_mem p hq)
    cases hd : derefParam parms p with
    | panicked => exact absurd hd (h p (List.mem_cons_self p rest))
    | unresolved =>
      rw [buildQSLoop, hd]
      simp [hd]
    | ok p2 =>
      rw [buildQSLoop, hd]
      dsimp only
      by_cases hq : p2.paramIn = "query"
      · simp only [hq, ne_eq, not_true_eq_false, if_false]
        rw [ih _ _ hrest]
        simp [hd]
      · simp only [hq, ne_eq, not_false_eq_true, if_true]
        rw [ih _ _ hrest]
        simp [hd]

/-- C8 (amended): with every parameter reference well-formed (carrying the
components marker), BuildQuerySchema fails exactly when a reference names a
parameter absent from components/parameters; otherwise it returns a schema
of type object with additionalProperties false whose required list collects
the names of the required dereferenced query parameters in order, and whose
properties map binds exactly each dereferenced query-parameter name to that
parameter's schema (a later parameter of the same name overwriting an
earlier one, so duplicated names collapse into one entry), with a schemaless
parameter bound to the permissive object schema. -/
theorem BuildQuerySchema_characterization (op : Operation)
    (parms : List (String × Parameter))
    (hnp : ∀ p ∈ op.parameters, derefParam parms p ≠ DerefResult.panicked) :
    (BuildQuerySchema op parms = BQResult.err ↔
      ∃ p ∈ op.parameters, derefParam parms p = DerefResult.unresolved) ∧
    ((∀ p ∈ op.parameters, derefParam parms p ≠ DerefResult.unresolved) →
      ∃ s, BuildQuerySchema op parms = BQResult.ok s ∧
        s.type = "object" ∧
        s.additionalProperties = some (Value.bool false) ∧
        s.required =
          ((derefQueryParams parms op.parameters).filter (fun p => p.required)).map
            (fun p => p.name) ∧
        ∀ n, lookupKey n s.properties =
          (match (derefQueryParams parms op.parameters).reverse.find?
              (fun p => p.name == n) with
           | some p => some (p.schema.getD typeObjectSchema)
           | none => none)) := by
  constructor
  · exact buildQSLoop_err parms op.parameters [] [] hnp
  · intro hnu
    have hok : ∀ p ∈ op.parameters, ∃ p2, derefParam parms p = DerefResult.ok p2 := by
      intro p hp
      cases hd : derefParam parms p with
      | panicked => exact absurd hd (hnp p hp)
      | unresolved => exact absurd hd (hnu p hp)
      | ok p2 => exact ⟨p2, rfl⟩
    obtain ⟨s, hs, htype, haddp, hreq, hlook⟩ :=
      buildQSLoop_ok parms op.parameters [] [] hok
    refine ⟨s, hs, htype, haddp, by simpa using hreq, ?_⟩
    intro n
    rw [hlook n]
    cases (derefQueryParams parms op.parameters).reverse.find? (fun p => p.name == n) with
    | some q => rfl
    | none => rfl

/-- C8 (witness): the characterization at a concrete operation with one
direct required query parameter and one referenced parameter. -/
theorem BuildQuerySchema_characterization_witness :
    (BuildQuerySchema opQueryW parmsW = BQResult.err ↔
      ∃ p ∈ opQueryW.parameters, derefParam parmsW p = DerefResult.unresolved) ∧
    ((∀ p ∈ opQueryW.parameters, derefParam parmsW p ≠ DerefResult.unresolved) →
      ∃ s, BuildQuerySchema opQueryW parmsW = BQResult.ok s ∧
        s.type = "object" ∧
        s.additionalProperties = some (Value.bool false) ∧
        s.required =
          ((derefQueryParams parmsW opQueryW.parameters).filter (fun p => p.required)).map
            (fun p => p.name) ∧
        ∀ n, lookupKey n s.properties =
          (match (derefQueryParams parmsW opQueryW.parameters).reverse.find?
              (fun p => p.name == n) with
           | some p => some (p.schema.getD typeObjectSchema)
           | none => none)) :=
  BuildQuerySchema_characterization opQueryW parmsW (by
    intro p hp
    simp only [opQueryW, List.mem_cons, List.not_mem_nil, or_false] at hp
    rcases hp with hp | hp <;>
      (subst hp; intro hcon; revert hcon; simp [derefParam, refAfterMarker,
        splitAfterFirst, parmsW, lookupKey]))

/-- C8 (counterexample): the claim asserts one property entry per query
parameter; an operation with two query parameters that share a name yields
a single property entry. -/
theorem BuildQuerySchema_dup_counterexample :
    (opDupQuery.parameters.filter (fun p => p.paramIn == "query")).length = 2 ∧
      bqPropsLen (BuildQuerySchema opDupQuery []) = 1 :=
  ⟨rfl, rfl⟩

/-- C7: of the three unresolvable-response scenarios the claim covers, only
a data schema absent from components/schemas reaches the 500 write; a
response ref without the components marker and a ref naming an absent
component response both panic (index out of range, nil dereference) before
the guard, because the ok flag of the responses lookup is shadowed.  The
spec (500 on any unresolvable internal error) is the clear intent of the
dead `if !ok` guard; the code panics instead. -/
theorem resolveResponseSchema_panics :
    isPanicked (resolveResponseSchema compsEmpty opMissingResponse) = true ∧
      isPanicked (resolveResponseSchema compsEmpty opBadRef) = true ∧
      isInternalError (resolveResponseSchema compsMissingSchema opMissingSchema) = true :=
  ⟨rfl, rfl, rfl⟩

/-- A list of all-string values survives the assertion loop. -/
theorem extractStrings_all_str (l : List Value)
    (h : ∀ v ∈ l, ∃ s, v = Value.str s) :
    ∃ es, extractStrings l = some es ∧ l = es.map Value.str := by
  induction l with
  | nil => exact ⟨[], rfl, rfl⟩
  | cons v rest ih =>
    obtain ⟨s, hs⟩ := h v (List.mem_cons_self v rest)
    subst hs
    obtain ⟨es, hes, hmap⟩ := ih (fun w hw => h w (List.mem_cons_of_mem _ hw))
    refine ⟨s :: es, ?_, ?_⟩
    · rw [extractStrings, hes]
      rfl
    · rw [List.map_cons, ← hmap]

/-- A list holding any non-string value panics the assertion loop. -/
theorem extractStrings_non_str (l : List Value)
    (h : ∃ v ∈ l, ∀ s, v ≠ Value.str s) :
    extractStrings l = none := by
  induction l with
  | nil =>
    obtain ⟨v, hv, -⟩ := h
    exact absurd hv (List.not_mem_nil v)
  | cons v rest ih =>
    obtain ⟨w, hw, hns⟩ := h
    cases v with
    | str s =>
      rcases List.mem_cons.mp hw with hw1 | hw1
      · exact absurd hw1 (hns s)
      · rw [extractStrings, ih ⟨w, hw1, hns⟩]
        rfl
    | null => rfl
    | bool b => rfl
    | num n => rfl
    | arr l2 => rfl
    | obj f => rfl

/-- C10 (counterexample): the claim asserts extraction never panics, even
for lists containing non-string elements; a decoded `expand` list holding
the number 42 hits the unchecked `expand.(string)` assertion. -/
theorem extractExpansions_panic_counterexample :
    extractExpansions [("expand", Value.arr [Value.num 42])] =
      ExtractOutcome.panicked :=
  rfl

/-- C10 (amended): extraction follows the stated rules (a string under
`expand` becomes a one-element sequence, a list of strings becomes that
sequence, absence or any other value produces no expansions) and is total
on all of them; but a list containing a non-string element panics in the
element type assertion. -/
theorem extractExpansions_characterization (data : List (String × Value)) :
    (lookupKey "expand" data = none →
      extractExpansions data = ExtractOutcome.ok none []) ∧
    (∀ s, lookupKey "expand" data = some (Value.str s) →
      extractExpansions data = ExtractOutcome.ok (some (parseExpansionLevel [s])) [s]) ∧
    (∀ l, lookupKey "expand" data = some (Value.arr l) →
      (∀ v ∈ l, ∃ s, v = Value.str s) →
      ∃ es, l = es.map Value.str ∧
        extractExpansions data = ExtractOutcome.ok (some (parseExpansionLevel es)) es) ∧
    (∀ l, lookupKey "expand" data = some (Value.arr l) →
      (∃ v ∈ l, ∀ s, v ≠ Value.str s) →
      extractExpansions data = ExtractOutcome.panicked) ∧
    (∀ v, lookupKey "expand" data = some v →
      (∀ s, v ≠ Value.str s) → (∀ l, v ≠ Value.arr l) →
      extractExpansions data = ExtractOutcome.ok none []) := by
  refine ⟨?_, ?_, ?_, ?_, ?_⟩
  · intro h
    rw [extractExpansions, h]
  · intro s h
    rw [extractExpansions, h]
  · intro l h hall
    obtain ⟨es, hes, hmap⟩ := extractStrings_all_str l hall
    refine ⟨es, hmap, ?_⟩
    rw [extractExpansions, h]
    dsimp only
    rw [hes]
  · intro l h hsome
    rw [extractExpansions, h]
    dsimp only
    rw [extractStrings_non_str l hsome]
  · intro v h hns hna
    cases v with
    | str s => exact absurd rfl (hns s)
    | arr l => exact absurd rfl (hna l)
    | null => rw [extractExpansions, h]
    | bool b => rw [extractExpansions, h]
    | num n => rw [extractExpansions, h]
    | obj f => rw [extractExpansions, h]

/-- C2: the expansion feasibility check misuses binary search.  The
requested key "balance" is not a member of the x-expandableFields set
["customer"], yet generation succeeds, because the check compares the
insertion index with the list length and so only detects keys sorting
after every member; such a key ("zzz") does produce the error. -/
theorem generateInternal_expansion_check_bug :
    ¬ ("balance" ∈ ["customer"]) ∧
      generateInternal emptyGenerator 2 (some expBalance) schemaExpandable
        (some (Value.str "foo")) "GET" "/v2/x" = Except.ok (Value.str "foo") ∧
      generateInternal emptyGenerator 2 (some expZzz) schemaExpandable
        (some (Value.str "foo")) "GET" "/v2/x" =
        Except.error GenErr.expansionNotSupported :=
  ⟨by decide, rfl, rfl⟩

/-- The head computation of the `generateListResource` property loop
yields exactly the rule value whenever the url rule succeeds. -/
theorem listField_head (itemData : Value) (exm : Option Value) (path : String)
    (key : String) (subSchema : Schema)
    (h : key = "url" → ∃ u, urlValue subSchema exm path = Except.ok u) :
    (if key = "data" then (Except.ok (Value.arr [itemData]) : Except GenErr Value)
     else if key = "has_more" then .ok (.bool false)
     else if key = "object" then .ok (.str "list")
     else if key = "total_count" then .ok (.num 1)
     else if key = "url" then urlValue subSchema exm path
     else .ok .null) =
      Except.ok (listFieldRule itemData exm path key subSchema) := by
  unfold listFieldRule
  by_cases h1 : key = "data"
  · simp [h1]
  · by_cases h2 : key = "has_more"
    · simp [h1, h2]
    · by_cases h3 : key = "object"
      · simp [h1, h2, h3]
      · by_cases h4 : key = "total_count"
        · simp [h1, h2, h3, h4]
        · by_cases h5 : key = "url"
          · obtain ⟨u, hu⟩ := h h5
            simp [h1, h2, h3, h4, h5, hu]
          · simp [h1, h2, h3, h4, h5]

/-- The property loop of `generateListResource` succeeds whenever every
declared url property has a working url rule, and the produced map is the
rule applied pointwise. -/
theorem buildListFields_ok (itemData : Value) (exm : Option Value) (path : String) :
    ∀ props : List (String × Schema),
      (∀ p ∈ props, p.1 = "url" → ∃ u, urlValue p.2 exm path = Except.ok u) →
      ∃ fields, buildListFields itemData exm path props = Except.ok fields ∧
        ∀ n, lookupKey n fields =
          (lookupKey n props).map (listFieldRule itemData exm path n) := by
  intro props
  induction props with
  | nil => exact fun _ => ⟨[], rfl, fun n => rfl⟩
  | cons kv rest ih =>
    obtain ⟨key, subSchema⟩ := kv
    intro h
    obtain ⟨fields, hf, hlook⟩ := ih (fun p hp hu => h p (List.mem_cons_of_mem _ hp) hu)
    have hhead := listField_head itemData exm path key subSchema
      (fun hk => h (key, subSchema) (List.mem_cons_self _ _) hk)
    refine ⟨(key, listFieldRule itemData exm path key subSchema) :: fields, ?_, ?_⟩
    · rw [buildListFields, hhead]
      dsimp only
      rw [hf]
    · intro n
      by_cases hn : key = n
      · subst hn
        simp [lookupKey]
      · simp [lookupKey, hn, hlook n]

/-- C5: for a schema recognized as a list envelope whose single item
generates successfully and whose url rule resolves, generateListResource
returns a map binding exactly the declared properties: data to the
one-element list of the generated item, has_more to false, object to
"list", total_count to 1, url by the pattern/example/request-path rule, and
every other declared property to null. -/
theorem generateListResource_characterization (g : DataGenerator) (fuel : Nat)
    (exps : Option ExpansionLevel) (method path : String) (schema : Schema)
    (exm : Option Value) (dataProp itemSchema : Schema) (itemData : Value)
    (_hlist : isListResource schema = true)
    (hd : lookupKey "data" schema.properties = some dataProp)
    (hi : dataProp.items = some itemSchema)
    (hitem : generateInternal g fuel
      (exps.bind (fun e => lookupKey "data" e.expansions)) itemSchema none
      method path = Except.ok itemData)
    (hurl : ∀ p ∈ schema.properties, p.1 = "url" →
      ∃ u, urlValue p.2 exm path = Except.ok u) :
    ∃ fields, generateListResource g (fuel + 1) exps method path schema exm =
        Except.ok (Value.obj fields) ∧
      ∀ n, lookupKey n fields =
        (lookupKey n schema.properties).map (listFieldRule itemData exm path n) := by
  obtain ⟨fields, hf, hlook⟩ := buildListFields_ok itemData exm path schema.properties hurl
  refine ⟨fields, ?_, hlook⟩
  rw [generateListResource, hd]
  dsimp only
  rw [hi]
  dsimp only
  rw [hitem]
  dsimp only
  rw [hf]

/-- C5 (witness): the characterization at a concrete envelope whose item
schema synthesizes the empty string and whose url pattern carries a
caret. -/
theorem generateListResource_characterization_witness :
    ∃ fields, generateListResource emptyGenerator 3 none "GET" "/v2/widgets"
        listSchemaW none = Except.ok (Value.obj fields) ∧
      ∀ n, lookupKey n fields =
        (lookupKey n listSchemaW.properties).map
          (listFieldRule (Value.str "") none "/v2/widgets" n) :=
  generateListResource_characterization emptyGenerator 2 none "GET" "/v2/widgets"
    listSchemaW none dataPropW strSchemaGen (Value.str "") rfl rfl rfl rfl (by
      intro p hp hk
      simp only [listSchemaW, Schema.properties, List.mem_cons, List.not_mem_nil,
        or_false] at hp
      rcases hp with h | h | h | h | h | h <;> subst h
      · exact absurd hk (by decide)
      · exact absurd hk (by decide)
      · exact absurd hk (by decide)
      · exact absurd hk (by decide)
      · exact ⟨Value.str "/v2/widgets", rfl⟩
      · exact absurd hk (by decide))

/-- C6 (counterexample): with two secondaries a/A and b/B, the object
nested under "b" whose `object` field names "a" is doubly matched: one run
leaves its id as "B", but the second record pass appends "B" to the
replaced IDs of secondary "a", whose distribute rewrite then moves the id
to "A".  Running the reflector twice does not reproduce the single run. -/
theorem reflectIDs_not_idempotent :
    innerId (reflectIDs ppC6 vC6).1 = some "B" ∧
      innerId (reflectIDs (reflectIDs ppC6 vC6).2 (reflectIDs ppC6 vC6).1).1 = some "A" ∧
      ¬ (reflectIDs (reflectIDs ppC6 vC6).2 (reflectIDs ppC6 vC6).1).1 =
          (reflectIDs ppC6 vC6).1 := by
  refine ⟨rfl, rfl, fun h => ?_⟩
  have h2 : (some "A" : Option String) = some "B" := congrArg innerId h
  exact absurd h2 (by decide)

/-- A prefix plus the remainder is the whole list. -/
theorem isPrefixOf_append_drop (pat : List Char) :
    ∀ s : List Char, pat.isPrefixOf s = true → pat ++ s.drop pat.length = s := by
  intro s h
  have hp : pat <+: s := by
    rw [← List.isPrefixOf_iff_prefix]
    exact h
  obtain ⟨t, rfl⟩ := hp
  rw [List.drop_left]

/-- Replacing a pattern by itself changes nothing. -/
theorem replaceFirstL_self (pat : List Char) :
    ∀ s : List Char, replaceFirstL s pat pat = s := by
  intro s
  induction s with
  | nil => rfl
  | cons c rest ih =>
    rw [replaceFirstL]
    by_cases h : pat.isPrefixOf (c :: rest) = true
    · rw [if_pos h]
      exact isPrefixOf_append_drop pat (c :: rest) h
    · rw [if_neg h, ih]

/-- Unfolding a distribute step whose string rewrites both miss. -/
theorem distributeFields_cons_inert (pp : ReflPathParams) (key : String) (value : Value)
    (rest : List (String × Value))
    (hns : distributeReplacedIDsInValue pp value = none)
    (hnu : distributeReplacedIDsInURL pp value = none) :
    distributeFields pp ((key, value) :: rest) =
      (key, distributeValue pp value) :: distributeFields pp rest := by
  rw [distributeFields, hns]
  dsimp only
  by_cases hu : key = "url"
  · rw [if_pos hu, hnu]
  · rw [if_neg hu]

/-- When both rewrite rules are the identity on every string, the whole
distribute pass is the identity. -/
theorem distributeValue_inert (pp : ReflPathParams)
    (H1 : ∀ s, distributeReplacedIDsInValue pp (Value.str s) = none ∨
      distributeReplacedIDsInValue pp (Value.str s) = some s)
    (H2 : ∀ s, distributeReplacedIDsInURL pp (Value.str s) = none ∨
      distributeReplacedIDsInURL pp (Value.str s) = some s) :
    ∀ n : Nat,
      (∀ v : Value, sizeOf v ≤ n → distributeValue pp v = v) ∧
      (∀ elems : List Value, sizeOf elems ≤ n → distributeList pp elems = elems) ∧
      (∀ fields : List (String × Value), sizeOf fields ≤ n →
        distributeFields pp fields = fields) := by
  intro n
  induction n using Nat.strong_induction_on with
  | _ n ih =>
    refine ⟨?_, ?_, ?_⟩
    · intro v hv
      cases v with
      | arr elems =>
        rw [distributeValue]
        have hsz : sizeOf elems < sizeOf (Value.arr elems) := by
          simp [Value.arr.sizeOf_spec]
        rw [(ih (sizeOf elems) (Nat.lt_of_lt_of_le hsz hv)).2.1 elems (Nat.le_refl _)]
      | obj fields =>
        rw [distributeValue]
        have hsz : sizeOf fields < sizeOf (Value.obj fields) := by
          simp [Value.obj.sizeOf_spec]
        rw [(ih (sizeOf fields) (Nat.lt_of_lt_of_le hsz hv)).2.2 fields (Nat.le_refl _)]
      | null => rfl
      | bool b => rfl
      | num m => rfl
      | str s => rfl
    · intro elems he
      cases elems with
      | nil => rfl
      | cons v rest =>
        rw [distributeList]
        have h1 : sizeOf v < n := by
          have : sizeOf (v :: rest) = 1 + sizeOf v + sizeOf rest := by
            simp [List.cons.sizeOf_spec]
          omega
        have h2 : sizeOf rest < n := by
          have : sizeOf (v :: rest) = 1 + sizeOf v + sizeOf rest := by
            simp [List.cons.sizeOf_spec]
          omega
        rw [(ih (sizeOf v) h1).1 v (Nat.le_refl _),
          (ih (sizeOf rest) h2).2.1 rest (Nat.le_refl _)]
    · intro fields hf
      cases fields with
      | nil => rfl
      | cons kv rest =>
        obtain ⟨key, value⟩ := kv
        have hszr : sizeOf rest < n := by
          have : sizeOf ((key, value) :: rest) =
              1 + (1 + sizeOf key + sizeOf value) + sizeOf rest := by
            simp [List.cons.sizeOf_spec, Prod.mk.sizeOf_spec]
          omega
        have hszv : sizeOf value < n := by
          have : sizeOf ((key, value) :: rest) =
              1 + (1 + sizeOf key + sizeOf value) + sizeOf rest := by
            simp [List.cons.sizeOf_spec, Prod.mk.sizeOf_spec]
          omega
        have hrest := (ih (sizeOf rest) hszr).2.2 rest (Nat.le_refl _)
        cases value with
        | str s =>
          rcases H1 s with h1 | h1
          · by_cases hu : key = "url"
            · subst hu
              rcases H2 s with h2 | h2
              · rw [distributeFields, h1]
                dsimp only
                rw [if_pos rfl, h2]
                dsimp only
                rw [hrest, (ih (sizeOf (Value.str s)) hszv).1 _ (Nat.le_refl _)]
              · rw [distributeFields, h1]
                dsimp only
                rw [if_pos rfl, h2]
                dsimp only
                rw [hrest]
            · rw [distributeFields, h1]
              dsimp only
              rw [if_neg hu, hrest, (ih (sizeOf (Value.str s)) hszv).1 _ (Nat.le_refl _)]
          · rw [distributeFields, h1]
            dsimp only
            rw [hrest]
        | null =>
          rw [distributeFields_cons_inert pp key Value.null rest rfl rfl, hrest,
            (ih (sizeOf Value.null) hszv).1 _ (Nat.le_refl _)]
        | bool b =>
          rw [distributeFields_cons_inert pp key (Value.bool b) rest rfl rfl, hrest,
            (ih (sizeOf (Value.bool b)) hszv).1 _ (Nat.le_refl _)]
        | num m =>
          rw [distributeFields_cons_inert pp key (Value.num m) rest rfl rfl, hrest,
            (ih (sizeOf (Value.num m)) hszv).1 _ (Nat.le_refl _)]
        | arr elems2 =>
          rw [distributeFields_cons_inert pp key (Value.arr elems2) rest rfl rfl, hrest,
            (ih (sizeOf (Value.arr elems2)) hszv).1 _ (Nat.le_refl _)]
        | obj fields2 =>
          rw [distributeFields_cons_inert pp key (Value.obj fields2) rest rfl rfl, hrest,
            (ih (sizeOf (Value.obj fields2)) hszv).1 _ (Nat.le_refl _)]

/-- With no secondary IDs, the record pass only acts on a string `id`
field at level zero with a primary ID present; everywhere else it returns
value and parameters unchanged. -/
theorem recordValue_inert (pp : ReflPathParams) (hsec : pp.secondaryIDs = []) :
    ∀ n : Nat,
      (∀ (v : Value) (pk : Option String) (level : Nat), sizeOf v ≤ n →
        (level ≠ 0 ∨ pp.primaryID = none) → recordValue v pp pk level = (v, pp)) ∧
      (∀ (elems : List Value) (level : Nat), sizeOf elems ≤ n →
        recordList elems pp level = (elems, pp)) ∧
      (∀ (done todo : List (String × Value)) (pk : Option String) (level : Nat),
        sizeOf todo ≤ n → (level ≠ 0 ∨ pp.primaryID = none) →
        recordFields done todo pp pk level = (todo, pp)) := by
  intro n
  induction n using Nat.strong_induction_on with
  | _ n ih =>
    refine ⟨?_, ?_, ?_⟩
    · intro v pk level hv hcond
      cases v with
      | arr elems =>
        have hsz : sizeOf elems < sizeOf (Value.arr elems) := by
          simp [Value.arr.sizeOf_spec]
        rw [recordValue,
          (ih (sizeOf elems) (Nat.lt_of_lt_of_le hsz hv)).2.1 elems level (Nat.le_refl _)]
      | obj fields =>
        have hsz : sizeOf fields < sizeOf (Value.obj fields) := by
          simp [Value.obj.sizeOf_spec]
        rw [recordValue,
          (ih (sizeOf fields) (Nat.lt_of_lt_of_le hsz hv)).2.2 [] fields pk level
            (Nat.le_refl _) hcond]
      | null => rfl
      | bool b => rfl
      | num m => rfl
      | str s => rfl
    · intro elems level he
      cases elems with
      | nil => rfl
      | cons v rest =>
        have h1 : sizeOf v < n := by
          have : sizeOf (v :: rest) = 1 + sizeOf v + sizeOf rest := by
            simp [List.cons.sizeOf_spec]
          omega
        have h2 : sizeOf rest < n := by
          have : sizeOf (v :: rest) = 1 + sizeOf v + sizeOf rest := by
            simp [List.cons.sizeOf_spec]
          omega
        rw [recordList,
          (ih (sizeOf v) h1).1 v none (level + 1) (Nat.le_refl _)
            (Or.inl (Nat.succ_ne_zero level))]
        dsimp only
        rw [(ih (sizeOf rest) h2).2.1 rest level (Nat.le_refl _)]
    · intro done todo pk level ht hcond
      cases todo with
      | nil => rfl
      | cons kv rest =>
        obtain ⟨key, val⟩ := kv
        have hszr : sizeOf rest < n := by
          have : sizeOf ((key, val) :: rest) =
              1 + (1 + sizeOf key + sizeOf val) + sizeOf rest := by
            simp [List.cons.sizeOf_spec, Prod.mk.sizeOf_spec]
          omega
        have hszv : sizeOf val < n := by
          have : sizeOf ((key, val) :: rest) =
              1 + (1 + sizeOf key + sizeOf val) + sizeOf rest := by
            simp [List.cons.sizeOf_spec, Prod.mk.sizeOf_spec]
          omega
        have hrest : ∀ d : List (String × Value),
            recordFields d rest pp pk level = (rest, pp) :=
          fun d => (ih (sizeOf rest) hszr).2.2 d rest pk level (Nat.le_refl _) hcond
        have hval : ∀ k2 : String,
            recordValue val pp (some k2) (level + 1) = (val, pp) :=
          fun k2 => (ih (sizeOf val) hszv).1 val (some k2) (level + 1) (Nat.le_refl _)
            (Or.inl (Nat.succ_ne_zero level))
        by_cases hk : key = "id"
        · cases val with
          | str strVal =>
            rw [recordFields, if_pos hk]
            dsimp only
            by_cases hl0 : level = 0
            · rcases hcond with hlv | hprim
              · exact absurd hl0 hlv
              · rw [if_pos hl0, hprim]
                dsimp only
                rw [hrest]
            · rw [if_neg hl0, hsec]
              dsimp only [recordFirstMatch]
              cases hlk : lookupKey "object" (done ++ (key, Value.str strVal) :: rest) with
              | none =>
                dsimp only
                cases pk with
                | none =>
                  dsimp only
                  rw [hrest]
                | some pk2 =>
                  dsimp only
                  rw [hsec]
                  dsimp only [recordFirstMatch]
                  rw [hrest]
              | some w =>
                cases w
                all_goals
                  dsimp only
                  cases pk with
                  | none =>
                    dsimp only
                    rw [hrest]
                  | some pk2 =>
                    dsimp only
                    rw [hsec]
                    dsimp only [recordFirstMatch]
                    rw [hrest]
          | null =>
            rw [recordFields, if_pos hk]
            dsimp only
            rw [hval key]
            dsimp only
            rw [hrest]
            intro s hcontr
            exact Value.noConfusion hcontr
          | bool b =>
            rw [recordFields, if_pos hk]
            dsimp only
            rw [hval key]
            dsimp only
            rw [hrest]
            intro s hcontr
            exact Value.noConfusion hcontr
          | num m =>
            rw [recordFields, if_pos hk]
            dsimp only
            rw [hval key]
            dsimp only
            rw [hrest]
            intro s hcontr
            exact Value.noConfusion hcontr
          | arr elems2 =>
            rw [recordFields, if_pos hk]
            dsimp only
            rw [hval key]
            dsimp only
            rw [hrest]
            intro s hcontr
            exact Value.noConfusion hcontr
          | obj fields2 =>
            rw [recordFields, if_pos hk]
            dsimp only
            rw [hval key]
            dsimp only
            rw [hrest]
            intro s hcontr
            exact Value.noConfusion hcontr
        · cases val with
          | str strVal =>
            rw [recordFields, if_neg hk]
            dsimp only
            rw [hsec]
            dsimp only [recordFirstMatch]
            rw [hrest]
          | null =>
            rw [recordFields, if_neg hk]
            dsimp only
            rw [hval key]
            dsimp only
            rw [hrest]
            intro s hcontr
            exact Value.noConfusion hcontr
          | bool b =>
            rw [recordFields, if_neg hk]
            dsimp only
            rw [hval key]
            dsimp only
            rw [hrest]
            intro s hcontr
            exact Value.noConfusion hcontr
          | num m =>
            rw [recordFields, if_neg hk]
            dsimp only
            rw [hval key]
            dsimp only
            rw [hrest]
            intro s hcontr
            exact Value.noConfusion hcontr
          | arr elems2 =>
            rw [recordFields, if_neg hk]
            dsimp only
            rw [hval key]
            dsimp only
            rw [hrest]
            intro s hcontr
            exact Value.noConfusion hcontr
          | obj fields2 =>
            rw [recordFields, if_neg hk]
            dsimp only
            rw [hval key]
            dsimp only
            rw [hrest]
            intro s hcontr
            exact Value.noConfusion hcontr

/-- With no replaced primary ID and no secondaries, the equality rewrite
never fires. -/
theorem distributeInValue_none (pp : ReflPathParams)
    (hrp : pp.replacedPrimaryID = none) (hsec : pp.secondaryIDs = [])
    (s : String) : distributeReplacedIDsInValue pp (Value.str s) = none := by
  simp [distributeReplacedIDsInValue, hrp, hsec, distributeFindSecondary]

/-- With no replaced primary ID and no secondaries, the url rewrite never
fires. -/
theorem distributeInURL_none (pp : ReflPathParams)
    (hrp : pp.replacedPrimaryID = none) (hsec : pp.secondaryIDs = [])
    (s : String) : distributeReplacedIDsInURL pp (Value.str s) = none := by
  simp [distributeReplacedIDsInURL, hrp, hsec, urlReplaceSecs]

/-- When the replaced primary ID equals the primary ID and there are no
secondaries, the equality rewrite is the identity where it fires. -/
theorem distributeInValue_self (pp : ReflPathParams) (P : String)
    (hrp : pp.replacedPrimaryID = some P) (hp : pp.primaryID = some P)
    (hsec : pp.secondaryIDs = []) (s : String) :
    distributeReplacedIDsInValue pp (Value.str s) = none ∨
      distributeReplacedIDsInValue pp (Value.str s) = some s := by
  by_cases hs : s = P
  · subst hs
    right
    simp [distributeReplacedIDsInValue, hrp, hp]
  · left
    simp [distributeReplacedIDsInValue, hrp, hsec, hs, distributeFindSecondary]

/-- When the replaced primary ID equals the primary ID and there are no
secondaries, the url rewrite is the identity where it fires. -/
theorem distributeInURL_self (pp : ReflPathParams) (P : String)
    (hrp : pp.replacedPrimaryID = some P) (hp : pp.primaryID = some P)
    (hsec : pp.secondaryIDs = []) (s : String) :
    distributeReplacedIDsInURL pp (Value.str s) = none ∨
      distributeReplacedIDsInURL pp (Value.str s) = some s := by
  by_cases hc : containsSub ('/' :: P.data ++ ['/']) s.data = true
  · right
    simp only [distributeReplacedIDsInURL, hrp, if_pos hc, hp, Option.getD_some]
    rw [replaceFirstL_self]
  · left
    simp only [distributeReplacedIDsInURL, hrp, if_neg hc, hsec, urlReplaceSecs]
    rfl

/-- The level-zero record pass with a primary ID and no secondaries:
string `id` fields become the primary ID and the replaced primary ID
accumulates the last old value; everything else is untouched. -/
theorem recordFields_level0 (P : String) :
    ∀ (fields : List (String × Value)) (pp : ReflPathParams)
      (done : List (String × Value)) (pk : Option String),
      pp.secondaryIDs = [] → pp.primaryID = some P →
      recordFields done fields pp pk 0 =
        (fields.map (idMapEntry P),
          { pp with replacedPrimaryID := rpAfter fields pp.replacedPrimaryID }) := by
  intro fields
  induction fields with
  | nil =>
    intro pp done pk hsec hp
    rfl
  | cons kv rest ihf =>
    intro pp done pk hsec hp
    obtain ⟨key, val⟩ := kv
    have hval0 : recordValue val pp (some key) (0 + 1) = (val, pp) :=
      (recordValue_inert pp hsec (sizeOf val)).1 val (some key) (0 + 1) (Nat.le_refl _)
        (Or.inl (Nat.succ_ne_zero 0))
    by_cases hk : key = "id"
    · cases val with
      | str strVal =>
        rw [recordFields, if_pos hk]
        dsimp only
        rw [if_pos rfl, hp]
        dsimp only
        rw [ihf ⟨some P, some strVal, pp.secondaryIDs⟩
          (done ++ [(key, Value.str P)]) pk hsec rfl]
        simp only [List.map_cons, idMapEntry, rpAfter, if_pos hk, hsec]
      | null =>
        rw [recordFields, if_pos hk]
        dsimp only
        rw [hval0]
        dsimp only
        rw [ihf pp (done ++ [(key, Value.null)]) pk hsec hp]
        simp only [List.map_cons, idMapEntry, rpAfter, if_pos hk, hsec]
        intro s hcontr
        exact Value.noConfusion hcontr
      | bool b =>
        rw [recordFields, if_pos hk]
        dsimp only
        rw [hval0]
        dsimp only
        rw [ihf pp (done ++ [(key, Value.bool b)]) pk hsec hp]
        simp only [List.map_cons, idMapEntry, rpAfter, if_pos hk, hsec]
        intro s hcontr
        exact Value.noConfusion hcontr
      | num m =>
        rw [recordFields, if_pos hk]
        dsimp only
        rw [hval0]
        dsimp only
        rw [ihf pp (done ++ [(key, Value.num m)]) pk hsec hp]
        simp only [List.map_cons, idMapEntry, rpAfter, if_pos hk, hsec]
        intro s hcontr
        exact Value.noConfusion hcontr
      | arr elems2 =>
        rw [recordFields, if_pos hk]
        dsimp only
        rw [hval0]
        dsimp only
        rw [ihf pp (done ++ [(key, Value.arr elems2)]) pk hsec hp]
        simp only [List.map_cons, idMapEntry, rpAfter, if_pos hk, hsec]
        intro s hcontr
        exact Value.noConfusion hcontr
      | obj fields2 =>
        rw [recordFields, if_pos hk]
        dsimp only
        rw [hval0]
        dsimp only
        rw [ihf pp (done ++ [(key, Value.obj fields2)]) pk hsec hp]
        simp only [List.map_cons, idMapEntry, rpAfter, if_pos hk, hsec]
        intro s hcontr
        exact Value.noConfusion hcontr
    · cases val with
      | str strVal =>
        rw [recordFields, if_neg hk]
        dsimp only
        rw [hsec]
        dsimp only [recordFirstMatch]
        rw [ihf pp (done ++ [(key, Value.str strVal)]) pk hsec hp]
        simp only [List.map_cons, idMapEntry, rpAfter, if_neg hk, hsec]
      | null =>
        rw [recordFields, if_neg hk]
        dsimp only
        rw [hval0]
        dsimp only
        rw [ihf pp (done ++ [(key, Value.null)]) pk hsec hp]
        simp only [List.map_cons, idMapEntry, rpAfter, if_neg hk, hsec]
        intro s hcontr
        exact Value.noConfusion hcontr
      | bool b =>
        rw [recordFields, if_neg hk]
        dsimp only
        rw [hval0]
        dsimp only
        rw [ihf pp (done ++ [(key, Value.bool b)]) pk hsec hp]
        simp only [List.map_cons, idMapEntry, rpAfter, if_neg hk, hsec]
        intro s hcontr
        exact Value.noConfusion hcontr
      | num m =>
        rw [recordFields, if_neg hk]
        dsimp only
        rw [hval0]
        dsimp only
        rw [ihf pp (done ++ [(key, Value.num m)]) pk hsec hp]
        simp only [List.map_cons, idMapEntry, rpAfter, if_neg hk, hsec]
        intro s hcontr
        exact Value.noConfusion hcontr
      | arr elems2 =>
        rw [recordFields, if_neg hk]
        dsimp only
        rw [hval0]
        dsimp only
        rw [ihf pp (done ++ [(key, Value.arr elems2)]) pk hsec hp]
        simp only [List.map_cons, idMapEntry, rpAfter, if_neg hk, hsec]
        intro s hcontr
        exact Value.noConfusion hcontr
      | obj fields2 =>
        rw [recordFields, if_neg hk]
        dsimp only
        rw [hval0]
        dsimp only
        rw [ihf pp (done ++ [(key, Value.obj fields2)]) pk hsec hp]
        simp only [List.map_cons, idMapEntry, rpAfter, if_neg hk, hsec]
        intro s hcontr
        exact Value.noConfusion hcontr

/-- One `distributeFields` step is its head transform consed on the rest. -/
theorem distributeFields_cons (pp : ReflPathParams) (k : String) (v : Value)
    (rest : List (String × Value)) :
    distributeFields pp ((k, v) :: rest) =
      distributeHead pp k v :: distributeFields pp rest := by
  rw [distributeFields]
  rfl

/-- The head transform keeps the field key. -/
theorem distributeHead_fst (pp : ReflPathParams) (k : String) (v : Value) :
    (distributeHead pp k v).1 = k := by
  unfold distributeHead
  cases hdv : distributeReplacedIDsInValue pp v with
  | some nv => rfl
  | none =>
    dsimp only
    by_cases hu : k = "url"
    · rw [if_pos hu]
      cases hdu : distributeReplacedIDsInURL pp v with
      | some nv => rfl
      | none => rfl
    · rw [if_neg hu]

/-- The equality rewrite misses every non-string value. -/
theorem dIV_nonstr (pp : ReflPathParams) (v : Value) (hns : isStrV v = false) :
    distributeReplacedIDsInValue pp v = none := by
  cases v with
  | str s => simp [isStrV] at hns
  | null => rfl
  | bool b => rfl
  | num m => rfl
  | arr elems => rfl
  | obj fields => rfl

/-- The url rewrite misses every non-string value. -/
theorem dURL_nonstr (pp : ReflPathParams) (v : Value) (hns : isStrV v = false) :
    distributeReplacedIDsInURL pp v = none := by
  cases v with
  | str s => simp [isStrV] at hns
  | null => rfl
  | bool b => rfl
  | num m => rfl
  | arr elems => rfl
  | obj fields => rfl

/-- The distribute pass keeps non-strings non-strings. -/
theorem distributeValue_nonstr (pp : ReflPathParams) (v : Value)
    (hns : isStrV v = false) : isStrV (distributeValue pp v) = false := by
  cases v with
  | str s => simp [isStrV] at hns
  | null => rfl
  | bool b => rfl
  | num m => rfl
  | arr elems => rfl
  | obj fields => rfl

/-- The head transform keeps non-strings non-strings. -/
theorem distributeHead_snd_nonstr (pp : ReflPathParams) (k : String) (v : Value)
    (hns : isStrV v = false) : isStrV (distributeHead pp k v).2 = false := by
  unfold distributeHead
  rw [dIV_nonstr pp v hns]
  dsimp only
  by_cases hu : k = "url"
  · rw [if_pos hu, dURL_nonstr pp v hns]
    exact distributeValue_nonstr pp v hns
  · rw [if_neg hu]
    exact distributeValue_nonstr pp v hns

/-- `idMapEntry` fixes entries whose key is not `id`. -/
theorem idMapEntry_of_fst_nonid (P : String) (e : String × Value)
    (hk : ¬ e.1 = "id") : idMapEntry P e = e := by
  unfold idMapEntry
  rw [if_neg hk]

/-- `idMapEntry` fixes entries whose value is not a string. -/
theorem idMapEntry_of_snd_nonstr (P : String) (e : String × Value)
    (hns : isStrV e.2 = false) : idMapEntry P e = e := by
  unfold idMapEntry
  by_cases hk2 : e.1 = "id"
  · rw [if_pos hk2]
    cases he2 : e.2 with
    | str s =>
      rw [he2] at hns
      simp [isStrV] at hns
    | null => rfl
    | bool b => rfl
    | num m => rfl
    | arr elems => rfl
    | obj fields => rfl
  · rw [if_neg hk2]

/-- `rpAfter` skips entries whose key is not `id`. -/
theorem rpAfter_cons_fst_nonid (e : String × Value) (rest : List (String × Value))
    (y : Option String) (hk : ¬ e.1 = "id") :
    rpAfter (e :: rest) y = rpAfter rest y := by
  obtain ⟨k, w⟩ := e
  dsimp only at hk
  show rpAfter rest
      (if k = "id" then
        match w with
        | Value.str s => some s
        | _ => y
      else y) = rpAfter rest y
  rw [if_neg hk]

/-- `rpAfter` skips entries whose value is not a string. -/
theorem rpAfter_cons_snd_nonstr (e : String × Value) (rest : List (String × Value))
    (y : Option String) (hns : isStrV e.2 = false) :
    rpAfter (e :: rest) y = rpAfter rest y := by
  obtain ⟨k, w⟩ := e
  dsimp only at hns
  cases w with
  | str s => simp [isStrV] at hns
  | null =>
    show rpAfter rest (if k = "id" then y else y) = rpAfter rest y
    rw [ite_self]
  | bool b =>
    show rpAfter rest (if k = "id" then y else y) = rpAfter rest y
    rw [ite_self]
  | num m =>
    show rpAfter rest (if k = "id" then y else y) = rpAfter rest y
    rw [ite_self]
  | arr elems =>
    show rpAfter rest (if k = "id" then y else y) = rpAfter rest y
    rw [ite_self]
  | obj fields =>
    show rpAfter rest (if k = "id" then y else y) = rpAfter rest y
    rw [ite_self]

/-- The equality rewrite, fed the primary ID itself, misses or is the
identity (no secondaries; primary equals `P`). -/
theorem distributeInValue_str_P (pp : ReflPathParams) (P : String)
    (hp : pp.primaryID = some P) (hsec : pp.secondaryIDs = []) :
    distributeReplacedIDsInValue pp (Value.str P) = none ∨
      distributeReplacedIDsInValue pp (Value.str P) = some P := by
  rcases hr : pp.replacedPrimaryID with _ | r
  · left
    simp [distributeReplacedIDsInValue, hr, hsec, distributeFindSecondary]
  · by_cases hPr : P = r
    · right
      simp [distributeReplacedIDsInValue, hr, if_pos hPr, hp]
    · left
      simp [distributeReplacedIDsInValue, hr, if_neg hPr, hsec, distributeFindSecondary]

/-- After the level-zero id overwrite, the distribute pass produces a field
list that the id overwrite fixes, and whose `rpAfter` fold yields the
primary ID exactly when the original list had a string id. -/
theorem distributeFields_idMap_stable (pp1 : ReflPathParams) (P : String)
    (hp : pp1.primaryID = some P) (hsec : pp1.secondaryIDs = []) :
    ∀ fields : List (String × Value),
      (distributeFields pp1 (fields.map (idMapEntry P))).map (idMapEntry P) =
        distributeFields pp1 (fields.map (idMapEntry P)) ∧
      ∀ y : Option String,
        rpAfter (distributeFields pp1 (fields.map (idMapEntry P))) y =
          (if hasIdStr fields then some P else y) := by
  intro fields
  induction fields with
  | nil =>
    refine ⟨rfl, ?_⟩
    intro y
    have h0 : distributeFields pp1 (List.map (idMapEntry P) []) = [] := rfl
    rw [h0]
    simp [rpAfter, hasIdStr]
  | cons kv rest ihf =>
    obtain ⟨k, v⟩ := kv
    rw [List.map_cons]
    by_cases hk : k = "id"
    · cases v with
      | str s =>
        have he : idMapEntry P (k, Value.str s) = (k, Value.str P) := by
          unfold idMapEntry
          dsimp only
          rw [if_pos hk]
        rw [he, distributeFields_cons]
        have hd : distributeHead pp1 k (Value.str P) = (k, Value.str P) := by
          unfold distributeHead
          rcases distributeInValue_str_P pp1 P hp hsec with h | h
          · rw [h]
            dsimp only
            have hku : ¬ k = "url" := by
              rw [hk]
              decide
            rw [if_neg hku]
            rfl
          · rw [h]
        rw [hd]
        refine ⟨?_, ?_⟩
        · rw [List.map_cons]
          have he2 : idMapEntry P (k, Value.str P) = (k, Value.str P) := by
            unfold idMapEntry
            dsimp only
            rw [if_pos hk]
          rw [he2, ihf.1]
        · intro y
          have hr : rpAfter
              ((k, Value.str P) :: distributeFields pp1 (List.map (idMapEntry P) rest))
                y =
              rpAfter (distributeFields pp1 (List.map (idMapEntry P) rest)) (some P) := by
            show rpAfter (distributeFields pp1 (List.map (idMapEntry P) rest))
                (if k = "id" then some P else y) =
              rpAfter (distributeFields pp1 (List.map (idMapEntry P) rest)) (some P)
            rw [if_pos hk]
          rw [hr, ihf.2 (some P)]
          have hh : hasIdStr ((k, Value.str s) :: rest) = true := by
            simp [hasIdStr, hk, isStrV]
          rw [hh]
          cases hrest2 : hasIdStr rest <;> simp
      | null =>
        rw [idMapEntry_of_snd_nonstr P (k, Value.null) rfl, distributeFields_cons]
        refine ⟨?_, ?_⟩
        · rw [List.map_cons,
            idMapEntry_of_snd_nonstr P _ (distributeHead_snd_nonstr pp1 k Value.null rfl),
            ihf.1]
        · intro y
          rw [rpAfter_cons_snd_nonstr _ _ y
            (distributeHead_snd_nonstr pp1 k Value.null rfl), ihf.2 y]
          have hh : hasIdStr ((k, Value.null) :: rest) = hasIdStr rest := by
            simp [hasIdStr, isStrV]
          rw [hh]
      | bool b =>
        rw [idMapEntry_of_snd_nonstr P (k, Value.bool b) rfl, distributeFields_cons]
        refine ⟨?_, ?_⟩
        · rw [List.map_cons,
            idMapEntry_of_snd_nonstr P _ (distributeHead_snd_nonstr pp1 k (Value.bool b) rfl),
            ihf.1]
        · intro y
          rw [rpAfter_cons_snd_nonstr _ _ y
            (distributeHead_snd_nonstr pp1 k (Value.bool b) rfl), ihf.2 y]
          have hh : hasIdStr ((k, Value.bool b) :: rest) = hasIdStr rest := by
            simp [hasIdStr, isStrV]
          rw [hh]
      | num m =>
        rw [idMapEntry_of_snd_nonstr P (k, Value.num m) rfl, distributeFields_cons]
        refine ⟨?_, ?_⟩
        · rw [List.map_cons,
            idMapEntry_of_snd_nonstr P _ (distributeHead_snd_nonstr pp1 k (Value.num m) rfl),
            ihf.1]
        · intro y
          rw [rpAfter_cons_snd_nonstr _ _ y
            (distributeHead_snd_nonstr pp1 k (Value.num m) rfl), ihf.2 y]
          have hh : hasIdStr ((k, Value.num m) :: rest) = hasIdStr rest := by
            simp [hasIdStr, isStrV]
          rw [hh]
      | arr elems =>
        rw [idMapEntry_of_snd_nonstr P (k, Value.arr elems) rfl, distributeFields_cons]
        refine ⟨?_, ?_⟩
        · rw [List.map_cons,
            idMapEntry_of_snd_nonstr P _
              (distributeHead_snd_nonstr pp1 k (Value.arr elems) rfl),
            ihf.1]
        · intro y
          rw [rpAfter_cons_snd_nonstr _ _ y
            (distributeHead_snd_nonstr pp1 k (Value.arr elems) rfl), ihf.2 y]
          have hh : hasIdStr ((k, Value.arr elems) :: rest) = hasIdStr rest := by
            simp [hasIdStr, isStrV]
          rw [hh]
      | obj fields2 =>
        rw [idMapEntry_of_snd_nonstr P (k, Value.obj fields2) rfl, distributeFields_cons]
        refine ⟨?_, ?_⟩
        · rw [List.map_cons,
            idMapEntry_of_snd_nonstr P _
              (distributeHead_snd_nonstr pp1 k (Value.obj fields2) rfl),
            ihf.1]
        · intro y
          rw [rpAfter_cons_snd_nonstr _ _ y
            (distributeHead_snd_nonstr pp1 k (Value.obj fields2) rfl), ihf.2 y]
          have hh : hasIdStr ((k, Value.obj fields2) :: rest) = hasIdStr rest := by
            simp [hasIdStr, isStrV]
          rw [hh]
    · have hfst : ¬ (distributeHead pp1 k v).1 = "id" := by
        rw [distributeHead_fst]
        exact hk
      rw [idMapEntry_of_fst_nonid P (k, v) hk, distributeFields_cons]
      refine ⟨?_, ?_⟩
      · rw [List.map_cons, idMapEntry_of_fst_nonid P _ hfst, ihf.1]
      · intro y
        rw [rpAfter_cons_fst_nonid _ _ y hfst, ihf.2 y]
        have hh : hasIdStr ((k, v) :: rest) = hasIdStr rest := by
          simp [hasIdStr, hk]
        rw [hh]

/-- Decomposition of a `hasIdStr`-free cons cell. -/
theorem hasIdStr_cons_false (k : String) (v : Value) (rest : List (String × Value))
    (h : hasIdStr ((k, v) :: rest) = false) :
    (¬ k = "id" ∨ isStrV v = false) ∧ hasIdStr rest = false := by
  constructor
  · by_cases hk : k = "id"
    · right
      cases hsv : isStrV v
      · rfl
      · exfalso
        have htrue : hasIdStr ((k, v) :: rest) = true := by
          simp [hasIdStr, hk, hsv]
        rw [htrue] at h
        exact Bool.noConfusion h
    · left
      exact hk
  · cases hr2 : hasIdStr rest
    · rfl
    · exfalso
      have htrue : hasIdStr ((k, v) :: rest) = true := by
        have he : hasIdStr ((k, v) :: rest) =
            ((decide (k = "id") && isStrV v) || hasIdStr rest) := rfl
        rw [he, hr2]
        simp
      rw [htrue] at h
      exact Bool.noConfusion h

/-- Without a string id field, the id overwrite is the identity. -/
theorem idMap_eq_of_no_idstr (P : String) :
    ∀ fields : List (String × Value), hasIdStr fields = false →
      fields.map (idMapEntry P) = fields := by
  intro fields
  induction fields with
  | nil =>
    intro h
    rfl
  | cons kv rest ihf =>
    intro h
    obtain ⟨k, v⟩ := kv
    obtain ⟨hhead, hr⟩ := hasIdStr_cons_false k v rest h
    rcases hhead with hk | hv
    · rw [List.map_cons, idMapEntry_of_fst_nonid P (k, v) hk, ihf hr]
    · rw [List.map_cons, idMapEntry_of_snd_nonstr P (k, v) hv, ihf hr]

/-- Without a string id field, the `rpAfter` fold keeps its accumulator. -/
theorem rpAfter_eq_of_no_idstr :
    ∀ (fields : List (String × Value)) (y : Option String),
      hasIdStr fields = false → rpAfter fields y = y := by
  intro fields
  induction fields with
  | nil =>
    intro y h
    rfl
  | cons kv rest ihf =>
    intro y h
    obtain ⟨k, v⟩ := kv
    obtain ⟨hhead, hr⟩ := hasIdStr_cons_false k v rest h
    rcases hhead with hk | hv
    · rw [rpAfter_cons_fst_nonid (k, v) rest y hk, ihf y hr]
    · rw [rpAfter_cons_snd_nonstr (k, v) rest y hv, ihf y hr]

/-- C6 (amended): for path parameters with no secondary IDs and no
pre-recorded replaced primary ID -- the state in which `Generate` hands a
fresh request's parameters to the reflector for a primary-ID-only route --
running the ID reflector twice (record pass then distribute pass, threading
the mutated path parameters into the second run) returns the same value as
running it once. -/
theorem reflectIDs_idempotent_primary (pp : ReflPathParams) (v : Value)
    (hsec : pp.secondaryIDs = []) (hrp : pp.replacedPrimaryID = none) :
    (reflectIDs (reflectIDs pp v).2 (reflectIDs pp v).1).1 = (reflectIDs pp v).1 := by
  have hH1 : ∀ s, distributeReplacedIDsInValue pp (Value.str s) = none ∨
      distributeReplacedIDsInValue pp (Value.str s) = some s :=
    fun s => Or.inl (distributeInValue_none pp hrp hsec s)
  have hH2 : ∀ s, distributeReplacedIDsInURL pp (Value.str s) = none ∨
      distributeReplacedIDsInURL pp (Value.str s) = some s :=
    fun s => Or.inl (distributeInURL_none pp hrp hsec s)
  rcases hp : pp.primaryID with _ | P
  · have hrec : recordAndReplaceIDs pp v = (v, pp) := by
      rw [recordAndReplaceIDs]
      exact (recordValue_inert pp hsec (sizeOf v)).1 v none 0 (Nat.le_refl _) (Or.inr hp)
    have hdist : distributeReplacedIDs pp v = v := by
      rw [distributeReplacedIDs]
      exact (distributeValue_inert pp hH1 hH2 (sizeOf v)).1 v (Nat.le_refl _)
    have hfix : reflectIDs pp v = (v, pp) := by
      rw [reflectIDs, hrec]
      dsimp only
      rw [hdist]
    rw [hfix]
    dsimp only
    rw [hfix]
  · cases v with
    | null =>
      have hfix : reflectIDs pp Value.null = (Value.null, pp) := rfl
      rw [hfix]
      dsimp only
      rw [hfix]
    | bool b =>
      have hfix : reflectIDs pp (Value.bool b) = (Value.bool b, pp) := rfl
      rw [hfix]
      dsimp only
      rw [hfix]
    | num m =>
      have hfix : reflectIDs pp (Value.num m) = (Value.num m, pp) := rfl
      rw [hfix]
      dsimp only
      rw [hfix]
    | str s =>
      have hfix : reflectIDs pp (Value.str s) = (Value.str s, pp) := rfl
      rw [hfix]
      dsimp only
      rw [hfix]
    | arr elems =>
      have hrec : recordAndReplaceIDs pp (Value.arr elems) = (Value.arr elems, pp) := by
        rw [recordAndReplaceIDs, recordValue,
          (recordValue_inert pp hsec (sizeOf elems)).2.1 elems 0 (Nat.le_refl _)]
      have hdist : distributeReplacedIDs pp (Value.arr elems) = Value.arr elems := by
        rw [distributeReplacedIDs]
        exact (distributeValue_inert pp hH1 hH2 (sizeOf (Value.arr elems))).1 _
          (Nat.le_refl _)
      have hfix : reflectIDs pp (Value.arr elems) = (Value.arr elems, pp) := by
        rw [reflectIDs, hrec]
        dsimp only
        rw [hdist]
      rw [hfix]
      dsimp only
      rw [hfix]
    | obj fields =>
      cases hhas : hasIdStr fields with
      | false =>
        have hrec : recordAndReplaceIDs pp (Value.obj fields) = (Value.obj fields, pp) := by
          rw [recordAndReplaceIDs, recordValue,
            recordFields_level0 P fields pp [] none hsec hp,
            idMap_eq_of_no_idstr P fields hhas,
            rpAfter_eq_of_no_idstr fields pp.replacedPrimaryID hhas]
        have hdist : distributeReplacedIDs pp (Value.obj fields) = Value.obj fields := by
          rw [distributeReplacedIDs]
          exact (distributeValue_inert pp hH1 hH2 (sizeOf (Value.obj fields))).1 _
            (Nat.le_refl _)
        have hfix : reflectIDs pp (Value.obj fields) = (Value.obj fields, pp) := by
          rw [reflectIDs, hrec]
          dsimp only
          rw [hdist]
        rw [hfix]
        dsimp only
        rw [hfix]
      | true =>
        have hrec1 : recordAndReplaceIDs pp (Value.obj fields) =
            (Value.obj (fields.map (idMapEntry P)),
              { pp with replacedPrimaryID := rpAfter fields pp.replacedPrimaryID }) := by
          rw [recordAndReplaceIDs, recordValue,
            recordFields_level0 P fields pp [] none hsec hp]
        have hfix1 : reflectIDs pp (Value.obj fields) =
            (Value.obj (distributeFields
                { pp with replacedPrimaryID := rpAfter fields pp.replacedPrimaryID }
                (fields.map (idMapEntry P))),
              { pp with replacedPrimaryID := rpAfter fields pp.replacedPrimaryID }) := by
          rw [reflectIDs, hrec1]
          dsimp only
          rw [distributeReplacedIDs, distributeValue]
        have hG := distributeFields_idMap_stable
          { pp with replacedPrimaryID := rpAfter fields pp.replacedPrimaryID } P hp hsec
          fields
        have hrec2 : recordAndReplaceIDs
            { pp with replacedPrimaryID := rpAfter fields pp.replacedPrimaryID }
            (Value.obj (distributeFields
              { pp with replacedPrimaryID := rpAfter fields pp.replacedPrimaryID }
              (fields.map (idMapEntry P)))) =
            (Value.obj (distributeFields
              { pp with replacedPrimaryID := rpAfter fields pp.replacedPrimaryID }
              (fields.map (idMapEntry P))),
              { pp with replacedPrimaryID := some P }) := by
          have hsecR : ({ pp with
              replacedPrimaryID := rpAfter fields pp.replacedPrimaryID } :
              ReflPathParams).secondaryIDs = [] := hsec
          have hpR : ({ pp with
              replacedPrimaryID := rpAfter fields pp.replacedPrimaryID } :
              ReflPathParams).primaryID = some P := hp
          rw [recordAndReplaceIDs, recordValue,
            recordFields_level0 P _ _ [] none hsecR hpR, hG.1, hG.2, hhas]
          rfl
        have hdist2 : distributeReplacedIDs { pp with replacedPrimaryID := some P }
            (Value.obj (distributeFields
              { pp with replacedPrimaryID := rpAfter fields pp.replacedPrimaryID }
              (fields.map (idMapEntry P)))) =
            Value.obj (distributeFields
              { pp with replacedPrimaryID := rpAfter fields pp.replacedPrimaryID }
              (fields.map (idMapEntry P))) := by
          rw [distributeReplacedIDs]
          exact (distributeValue_inert { pp with replacedPrimaryID := some P }
            (distributeInValue_self { pp with replacedPrimaryID := some P } P rfl hp hsec)
            (distributeInURL_self { pp with replacedPrimaryID := some P } P rfl hp hsec)
            (sizeOf (Value.obj (distributeFields
              { pp with replacedPrimaryID := rpAfter fields pp.replacedPrimaryID }
              (fields.map (idMapEntry P)))))).1 _ (Nat.le_refl _)
        rw [hfix1]
        dsimp only
        rw [reflectIDs, hrec2]
        dsimp only
        rw [hdist2]

/-- Closed witness for the amended C6 theorem: a primary-only path-parameter
map and an object carrying an id and a url field. -/
theorem reflectIDs_idempotent_primary_witness :
    (reflectIDs
        (reflectIDs ⟨some "newID", none, []⟩
          (Value.obj [("id", Value.str "old"), ("url", Value.str "/v2/widgets/old")])).2
        (reflectIDs ⟨some "newID", none, []⟩
          (Value.obj [("id", Value.str "old"), ("url", Value.str "/v2/widgets/old")])).1).1 =
      (reflectIDs ⟨some "newID", none, []⟩
        (Value.obj [("id", Value.str "old"), ("url", Value.str "/v2/widgets/old")])).1 :=
  reflectIDs_idempotent_primary ⟨some "newID", none, []⟩
    (Value.obj [("id", Value.str "old"), ("url", Value.str "/v2/widgets/old")]) rfl rfl
